import Mathlib

/-
Verification of the dropsync directory-synchronization logic.

The development shallowly embeds the snapshot data structure (`DirState`),
its comparison predicates and the sync decision logic from `src/main.rs` and
`src/dir_state.rs`, the filesystem-walking operations `from_dir`,
`copy_into` and `remove_extraneous_files_from` over an explicit filesystem
model, and the TOML configuration lookups from `src/config.rs`.

Rust `HashMap<String, V>` values are embedded as association lists with a
well-formedness predicate stating that keys are unique (which every real
`HashMap` satisfies); `HashMap::get` is embedded as first-match lookup,
which agrees with any-match lookup under that invariant.  `u64` timestamps
and sizes are embedded as `Nat` (the code never performs arithmetic on
them, only comparisons, so overflow is not a concern).  Code that panics or
aborts on I/O errors is embedded with `Option`, `none` marking the panic.
-/

set_option maxHeartbeats 1000000

/-- Metadata record of one file: modification time in whole seconds since
the epoch, and size in bytes.  Embeds `FileState` of `src/dir_state.rs`
(also present identically in `src/main.rs`). -/
structure FileState where
  modified : Nat
  size : Nat
  deriving DecidableEq, Repr

mutual

/-- Snapshot of a directory tree: the files at this level keyed by name,
and the subdirectory snapshots keyed by name.  Embeds `DirState` of
`src/dir_state.rs` / `src/main.rs`; the two `HashMap` fields become
association lists.  The `path` and `file_filter` fields of the Rust struct
are not stored: no comparison predicate reads them, and the operations that
do use them (`copy_into`, `remove_extraneous_files_from`) receive the live
source tree and the filter as explicit parameters in this embedding. -/
inductive DirState : Type where
  | mk (files : List (String × FileState)) (subdirs : SubdirList)

/-- Association list of named subdirectory snapshots, embedding the
`subdirs: HashMap<String, DirState>` field. -/
inductive SubdirList : Type where
  | nil : SubdirList
  | cons (name : String) (state : DirState) (rest : SubdirList) : SubdirList

end

/-- The `files` field of a snapshot. -/
def DirState.files : DirState → List (String × FileState)
  | .mk fs _ => fs

/-- The `subdirs` field of a snapshot. -/
def DirState.subdirs : DirState → SubdirList
  | .mk _ sd => sd

/-- Embeds `HashMap::get`: first-match lookup in an association list. -/
def hashGet {α : Type} : List (String × α) → String → Option α
  | [], _ => none
  | (n, s) :: rest, k => if n = k then some s else hashGet rest k

/-- Embeds `HashMap::get` on the `subdirs` map. -/
def SubdirList.lookup : SubdirList → String → Option DirState
  | .nil, _ => none
  | .cons n s rest, k => if n = k then some s else rest.lookup k

/-- Embeds `HashMap::len` on the `subdirs` map. -/
def SubdirList.length : SubdirList → Nat
  | .nil => 0
  | .cons _ _ rest => rest.length + 1

/-- The list of subdirectory names, in association-list order. -/
def SubdirList.keys : SubdirList → List String
  | .nil => []
  | .cons n _ rest => n :: rest.keys

/-- Embeds `DirState::is_empty`: no files and no subdirectories at the top
level (`src/dir_state.rs` lines 54-56). -/
def DirState.is_empty (d : DirState) : Bool :=
  d.files.length == 0 && d.subdirs.length == 0

/-- Embeds `HashMap<String, FileState>` equality (`self.files !=
other.files` in `are_contents_equal_to`): same length, and every key/value
pair of the left map is found with an equal value in the right map. -/
def filesEqual (a b : List (String × FileState)) : Bool :=
  a.length == b.length &&
  a.all (fun p => match hashGet b p.1 with
    | some v => decide (v = p.2)
    | none => false)

mutual

/-- Embeds `DirState::are_contents_equal_to` (`src/dir_state.rs` lines
58-76): the file maps are equal, the subdirectory maps have equal length,
and every subdirectory of the left side is found on the right side and is
recursively equal. -/
def DirState.are_contents_equal_to : DirState → DirState → Bool
  | .mk files subdirs, other =>
    filesEqual files other.files &&
    (subdirs.length == other.subdirs.length) &&
    subdirs.all_contents_equal other.subdirs

/-- The loop of `are_contents_equal_to` over `self.subdirs`: each named
subdirectory must be present in `others` and recursively equal. -/
def SubdirList.all_contents_equal : SubdirList → SubdirList → Bool
  | .nil, _ => true
  | .cons n s rest, others =>
    (match others.lookup n with
     | some t => s.are_contents_equal_to t
     | none => false) && rest.all_contents_equal others

end

/-- The file loop of `are_any_contents_newer_than`: some file of `a` also
present in `b` has a strictly greater modification time in `a`. -/
def anyFileNewer (a b : List (String × FileState)) : Bool :=
  a.any (fun p => match hashGet b p.1 with
    | some t => decide (t.modified < p.2.modified)
    | none => false)

/-- The file loop of `are_any_contents_older_than`: some file of `a` also
present in `b` has a strictly smaller modification time in `a`. -/
def anyFileOlder (a b : List (String × FileState)) : Bool :=
  a.any (fun p => match hashGet b p.1 with
    | some t => decide (p.2.modified < t.modified)
    | none => false)

mutual

/-- Embeds `DirState::are_any_contents_newer_than` (`src/dir_state.rs`
lines 78-94). -/
def DirState.are_any_contents_newer_than : DirState → DirState → Bool
  | .mk files subdirs, other =>
    anyFileNewer files other.files || subdirs.any_newer other.subdirs

/-- The subdirectory loop of `are_any_contents_newer_than`. -/
def SubdirList.any_newer : SubdirList → SubdirList → Bool
  | .nil, _ => false
  | .cons n s rest, others =>
    (match others.lookup n with
     | some t => s.are_any_contents_newer_than t
     | none => false) || rest.any_newer others

end

mutual

/-- Embeds `DirState::are_any_contents_older_than` (`src/dir_state.rs`
lines 96-112). -/
def DirState.are_any_contents_older_than : DirState → DirState → Bool
  | .mk files subdirs, other =>
    anyFileOlder files other.files || subdirs.any_older other.subdirs

/-- The subdirectory loop of `are_any_contents_older_than`. -/
def SubdirList.any_older : SubdirList → SubdirList → Bool
  | .nil, _ => false
  | .cons n s rest, others =>
    (match others.lookup n with
     | some t => s.are_any_contents_older_than t
     | none => false) || rest.any_older others

end

mutual

/-- Embeds `DirState::are_contents_at_least_as_recent_as` of `src/main.rs`
(lines 94-110): no file of `self` also present in `other` is strictly
older, and every subdirectory of `self` also present in `other` is
recursively at least as recent. -/
def DirState.are_contents_at_least_as_recent_as : DirState → DirState → Bool
  | .mk files subdirs, other =>
    (files.all fun p => match hashGet other.files p.1 with
      | some t => !decide (p.2.modified < t.modified)
      | none => true) &&
    subdirs.all_at_least other.subdirs

/-- The subdirectory loop of `are_contents_at_least_as_recent_as`. -/
def SubdirList.all_at_least : SubdirList → SubdirList → Bool
  | .nil, _ => true
  | .cons n s rest, others =>
    (match others.lookup n with
     | some t => s.are_contents_at_least_as_recent_as t
     | none => true) && rest.all_at_least others

end

/-- Embeds `DirState::are_contents_generally_newer_than`
(`src/dir_state.rs` lines 114-118). -/
def DirState.are_contents_generally_newer_than (a other : DirState) : Bool :=
  !a.is_empty &&
  !a.are_any_contents_older_than other &&
  a.are_any_contents_newer_than other

/-- The five possible outcomes of the sync decision of `AppConfig::sync`
(`src/main.rs` lines 132-150), one per branch. -/
inductive SyncOutcome : Type where
  | AlreadySynced
  | AppNewerThanDropbox
  | DropboxNewerThanApp
  | BothEmpty
  | Conflict
  deriving DecidableEq, Repr

/-- Embeds the decision structure of `AppConfig::sync` (`src/main.rs` lines
132-150), abstracting each branch's side effect into its `SyncOutcome`. -/
def AppConfig.sync (dir_state dropbox_dir_state : DirState) : SyncOutcome :=
  if dir_state.are_contents_equal_to dropbox_dir_state then
    .AlreadySynced
  else if !dir_state.is_empty && dir_state.are_contents_at_least_as_recent_as dropbox_dir_state then
    .AppNewerThanDropbox
  else if !dropbox_dir_state.is_empty && dropbox_dir_state.are_contents_at_least_as_recent_as dir_state then
    .DropboxNewerThanApp
  else if dir_state.is_empty && dropbox_dir_state.is_empty then
    .BothEmpty
  else
    .Conflict

/-- Boolean key-uniqueness check for a list of names. -/
def nodupKeysB : List String → Bool
  | [] => true
  | k :: rest => !(rest.contains k) && nodupKeysB rest

mutual

/-- Well-formedness of a snapshot: at every level the file names and
subdirectory names are jointly unique.  Every snapshot captured from a real
filesystem satisfies this: `HashMap` keys are unique and a directory cannot
hold two entries of the same name. -/
def DirState.wf : DirState → Bool
  | .mk files subdirs =>
    nodupKeysB (files.map Prod.fst ++ subdirs.keys) && subdirs.wf_all

/-- All subdirectory snapshots in the list are well-formed. -/
def SubdirList.wf_all : SubdirList → Bool
  | .nil => true
  | .cons _ s rest => s.wf && rest.wf_all

end

/-- Navigates a snapshot along a list of subdirectory names and looks up a
file name there.  Used only to state specification properties: a file "at
the same relative path" in two snapshots is one reachable by the same
`dirs` list and `name` in both. -/
def DirState.getFile : List String → String → DirState → Option FileState
  | [], name, d => hashGet d.files name
  | dir :: rest, name, d =>
    match d.subdirs.lookup dir with
    | some sub => DirState.getFile rest name sub
    | none => none

/-- Specification predicate for claim C6: some file present in both trees
at the same relative path is strictly newer in `a` than in `b`. -/
def NewerEvidence (a b : DirState) : Prop :=
  ∃ dirs name sa sb, DirState.getFile dirs name a = some sa ∧
    DirState.getFile dirs name b = some sb ∧ sb.modified < sa.modified

/-- Specification predicate: some file present in both trees at the same
relative path is strictly older in `a` than in `b`. -/
def OlderEvidence (a b : DirState) : Prop :=
  ∃ dirs name sa sb, DirState.getFile dirs name a = some sa ∧
    DirState.getFile dirs name b = some sb ∧ sa.modified < sb.modified

/-- Top-level name disjointness of two snapshots: no file name and no
subdirectory name occurs in both.  Snapshots that overlap nowhere (the
hypothesis of claim C1) in particular satisfy this. -/
def DirState.names_disjoint (a b : DirState) : Bool :=
  ((a.files.map Prod.fst).all fun k => (hashGet b.files k).isNone) &&
  (a.subdirs.keys.all fun k => (b.subdirs.lookup k).isNone)

/-- Filesystem metadata as consulted by the code: the `is_dir` flag, the
length in bytes, and the modification time already truncated to whole
seconds (`metadata.modified() ... as_secs()`). -/
structure Metadata where
  is_dir : Bool
  len : Nat
  modified : Nat
  deriving DecidableEq, Repr

mutual

/-- One live filesystem entry: its metadata and, when it is a directory,
its children.  Files carry an empty children list. -/
inductive FSEntry : Type where
  | mk (meta : Metadata) (children : FSList)

/-- The named entries of one live directory, in directory-iteration
order. -/
inductive FSList : Type where
  | nil : FSList
  | cons (name : String) (entry : FSEntry) (rest : FSList) : FSList

end

/-- The metadata of an entry. -/
def FSEntry.meta : FSEntry → Metadata
  | .mk m _ => m

/-- The children of an entry. -/
def FSEntry.children : FSEntry → FSList
  | .mk _ c => c

/-- Name lookup in a live directory. -/
def FSList.lookup : FSList → String → Option FSEntry
  | .nil, _ => none
  | .cons n e rest, k => if n = k then some e else rest.lookup k

/-- The entry names of a live directory, in iteration order. -/
def FSList.keys : FSList → List String
  | .nil => []
  | .cons n _ rest => n :: rest.keys

/-- Writes an entry under a name: replaces the existing entry of that name,
or appends a new one. -/
def FSList.set : FSList → String → FSEntry → FSList
  | .nil, name, e => .cons name e .nil
  | .cons n e0 rest, name, e =>
    if n = name then .cons n e rest else .cons n e0 (rest.set name e)

/-- Well-formedness of a live directory tree: names are unique at every
level, as on a real filesystem. -/
def FSList.wf : FSList → Bool
  | .nil => true
  | .cons name (.mk _ children) rest =>
    !(rest.keys.contains name) && children.wf && rest.wf

/-- Embeds `FileFilter` (`src/file_filter.rs`): an optional inclusion
pattern.  The glob pattern is abstracted into a predicate on the path of
the entry relative to the root of the walk (as a list of names); the code
applies the filter to the walked entry's path. -/
structure FileFilter where
  include_only : Option (List String → Bool)

/-- Embeds `FileFilter::is_file_included`. -/
def FileFilter.is_file_included (f : FileFilter) (path : List String) : Bool :=
  match f.include_only with
  | some pat => pat path
  | none => true

/-- Embeds `FileFilter::is_file_excluded`. -/
def FileFilter.is_file_excluded (f : FileFilter) (path : List String) : Bool :=
  !f.is_file_included path

/-- Embeds `FileState::from_metadata` (`src/dir_state.rs` lines 14-23):
panics (`none`) on directory metadata, otherwise records size and
second-truncated modification time. -/
def FileState.from_metadata (metadata : Metadata) : Option FileState :=
  if metadata.is_dir then none
  else some { modified := metadata.modified, size := metadata.len }

/-- The entry loop of `DirState::from_dir`, accumulating the `files` and
`subdirs` maps; the recursion into a subdirectory (Rust's
`DirState::from_dir(&subdir, &file_filter)`) is the call on `children` with
the extended path. -/
def fromEntries (file_filter : FileFilter) (path : List String) :
    FSList → Option (List (String × FileState) × SubdirList)
  | .nil => some ([], .nil)
  | .cons name (.mk m children) rest =>
    if file_filter.is_file_excluded (path ++ [name]) then
      fromEntries file_filter path rest
    else if m.is_dir then
      match fromEntries file_filter (path ++ [name]) children,
            fromEntries file_filter path rest with
      | some (cfs, csds), some (fs, sds) => some (fs, .cons name (.mk cfs csds) sds)
      | _, _ => none
    else
      match FileState.from_metadata m, fromEntries file_filter path rest with
      | some fstate, some (fs, sds) => some ((name, fstate) :: fs, sds)
      | _, _ => none

/-- Embeds `DirState::from_dir` (`src/dir_state.rs` lines 34-52) over the
filesystem model: walks the entries of the directory at `path`, skipping
filter-excluded entries, recursing into directories and recording the
remaining files via `FileState::from_metadata`.  `none` marks a panic. -/
def DirState.from_dir (file_filter : FileFilter) (path : List String)
    (entries : FSList) : Option DirState :=
  match fromEntries file_filter path entries with
  | some (files, subdirs) => some (.mk files subdirs)
  | none => none

/-- The file loop of `copy_into`: copies every file recorded in the
snapshot into the destination directory.  Under the no-concurrent-mutation
assumption the live source file still carries the recorded metadata, and
the copy preserves size and modification time (the behavior of the
platform's file copy that the repository's own `test_dirstate` test relies
on).  Copying onto an existing directory of the same name is a fatal
`fs::copy` error (`none`). -/
def copyFiles : List (String × FileState) → FSList → Option FSList
  | [], dest => some dest
  | (name, st) :: rest, dest =>
    match dest.lookup name with
    | some (.mk m _) =>
      if m.is_dir then none
      else copyFiles rest (dest.set name (.mk ⟨false, st.size, st.modified⟩ .nil))
    | none => copyFiles rest (dest.set name (.mk ⟨false, st.size, st.modified⟩ .nil))

mutual

/-- Embeds `DirState::copy_into` (`src/dir_state.rs` lines 120-131) over
the filesystem model, acting on the children list of the (already created)
destination directory: copies all recorded files, then recurses into each
recorded subdirectory, creating it when absent (`fs::create_dir_all`).
`create_dir_all` on a path that exists as a file is a fatal error
(`none`). -/
def DirState.copy_into : DirState → FSList → Option FSList
  | .mk files subdirs, dest =>
    match copyFiles files dest with
    | some dest1 => subdirs.copy_subdirs_into dest1
    | none => none

/-- The subdirectory loop of `copy_into`. -/
def SubdirList.copy_subdirs_into : SubdirList → FSList → Option FSList
  | .nil, dest => some dest
  | .cons name sub rest, dest =>
    match dest.lookup name with
    | some (.mk m children) =>
      if m.is_dir then
        match sub.copy_into children with
        | some newChildren => rest.copy_subdirs_into (dest.set name (.mk m newChildren))
        | none => none
      else none
    | none =>
      match sub.copy_into .nil with
      | some newChildren => rest.copy_subdirs_into (dest.set name (.mk ⟨true, 0, 0⟩ newChildren))
      | none => none

end

/-- Embeds `DirState::remove_extraneous_files_from` (`src/dir_state.rs`
lines 133-154) over the filesystem model: walks the destination entries,
skips filter-excluded ones, recursively prunes directories that the
snapshot also holds, deletes directories it does not, keeps files it holds
and deletes files it does not. -/
def DirState.remove_extraneous_files_from (s : DirState) (file_filter : FileFilter)
    (path : List String) : FSList → FSList
  | .nil => .nil
  | .cons name (.mk m children) rest =>
    if file_filter.is_file_excluded (path ++ [name]) then
      .cons name (.mk m children) (s.remove_extraneous_files_from file_filter path rest)
    else if m.is_dir then
      match s.subdirs.lookup name with
      | some sub =>
        .cons name (.mk m (sub.remove_extraneous_files_from file_filter (path ++ [name]) children))
          (s.remove_extraneous_files_from file_filter path rest)
      | none => s.remove_extraneous_files_from file_filter path rest
    else
      if (hashGet s.files name).isSome then
        .cons name (.mk m children) (s.remove_extraneous_files_from file_filter path rest)
      else
        s.remove_extraneous_files_from file_filter path rest

mutual

/-- Every file and subdirectory name of the snapshot, at its relative path
below `path`, is included by the filter.  Snapshots captured by `from_dir`
with that filter satisfy this, since excluded entries are skipped. -/
def DirState.all_included (f : FileFilter) (path : List String) : DirState → Bool
  | .mk files subdirs =>
    (files.all fun p => f.is_file_included (path ++ [p.1])) &&
    subdirs.all_included_list f path

/-- The subdirectory part of `DirState.all_included`. -/
def SubdirList.all_included_list (f : FileFilter) (path : List String) : SubdirList → Bool
  | .nil => true
  | .cons name sub rest =>
    f.is_file_included (path ++ [name]) &&
    sub.all_included f (path ++ [name]) &&
    rest.all_included_list f path

end

/-- Embeds `toml::Value` as far as `src/config.rs` consults it: strings,
booleans, tables, and an opaque constructor for every other variant. -/
inductive TomlValue : Type where
  | str (s : String)
  | boolean (b : Bool)
  | table (entries : List (String × TomlValue))
  | other

/-- Embeds `toml::Value::get`: key lookup on a table, `none` on any other
variant. -/
def TomlValue.get : TomlValue → String → Option TomlValue
  | .table entries, key => hashGet entries key
  | _, _ => none

/-- Embeds `get_optional_app_config_str` (`src/config.rs` lines 41-52): a
string under the key in the hostname sub-table wins; otherwise a string
under the key at the app's top level; otherwise `none`. -/
def get_optional_app_config_str (config : TomlValue) (hostname key : String) :
    Option String :=
  match config.get hostname with
  | some (TomlValue.table t) =>
    match hashGet t key with
    | some (TomlValue.str s) => some s
    | _ =>
      match config.get key with
      | some (TomlValue.str s) => some s
      | _ => none
  | _ =>
    match config.get key with
    | some (TomlValue.str s) => some s
    | _ => none

/-- Embeds `get_app_config_str` (`src/config.rs` lines 54-61): the optional
lookup, panicking (`Except.error` with the formatted message) when it finds
nothing. -/
def get_app_config_str (config : TomlValue) (app_name hostname key : String) :
    Except String String :=
  match get_optional_app_config_str config hostname key with
  | some s => Except.ok s
  | none =>
    Except.error ("Unable to find config key " ++ key ++ " for app " ++ app_name ++
      " and hostname " ++ hostname ++ "!")

/-- The hostname-sub-table string lookup, used to state claim C9: the value
the host-specific branch of `get_optional_app_config_str` would return. -/
def host_table_string (config : TomlValue) (hostname key : String) : Option String :=
  match config.get hostname with
  | some (TomlValue.table t) =>
    match hashGet t key with
    | some (TomlValue.str s) => some s
    | _ => none
  | _ => none

/-- The app-top-level string lookup, used to state claim C9: the value the
fallback branch of `get_optional_app_config_str` would return. -/
def app_level_string (config : TomlValue) (key : String) : Option String :=
  match config.get key with
  | some (TomlValue.str s) => some s
  | _ => none

/-- The round-trip property of claim C5, for one snapshot: for every
filter, path, and well-formed destination, a successful `copy_into`
followed by `remove_extraneous_files_from` leaves the destination so that a
fresh snapshot of it (same filter, same relative location) is structurally
equal to the snapshot. -/
def RoundTripP (s : DirState) : Prop :=
  ∀ (f : FileFilter) (p : List String) (dest dest1 : FSList),
    s.wf = true → s.all_included f p = true → dest.wf = true →
    s.copy_into dest = some dest1 →
    ∃ s2, DirState.from_dir f p (s.remove_extraneous_files_from f p dest1) =
      some s2 ∧ s2.are_contents_equal_to s = true

/-- `RoundTripP` holds of every snapshot in the list (the companion
predicate for the mutual induction behind claim C5). -/
def SubdirAllRoundTrip : SubdirList → Prop
  | .nil => True
  | .cons _ s rest => RoundTripP s ∧ SubdirAllRoundTrip rest

/-! ## Generic lookup and key lemmas -/

theorem hashGet_mem {α : Type} {l : List (String × α)} {k : String} {v : α}
    (h : hashGet l k = some v) : (k, v) ∈ l := by
  induction l with
  | nil => simp [hashGet] at h
  | cons p rest ih =>
    obtain ⟨n, s⟩ := p
    simp only [hashGet] at h
    by_cases hn : n = k
    · simp [hn] at h
      simp [hn, h]
    · simp [hn] at h
      exact List.mem_cons_of_mem _ (ih h)

theorem hashGet_eq_of_mem {α : Type} {l : List (String × α)} {k : String} {v : α}
    (hnd : (l.map Prod.fst).Nodup) (h : (k, v) ∈ l) : hashGet l k = some v := by
  induction l with
  | nil => simp at h
  | cons p rest ih =>
    obtain ⟨n, s⟩ := p
    simp only [List.map_cons, List.nodup_cons] at hnd
    rcases List.mem_cons.1 h with h1 | h1
    · rw [Prod.mk.injEq] at h1
      simp [hashGet, h1.1, h1.2]
    · have hk : n ≠ k := by
        intro he
        exact hnd.1 (he ▸ (List.mem_map.2 ⟨(k, v), h1, rfl⟩))
      simp [hashGet, hk]
      exact ih hnd.2 h1

theorem hashGet_isSome_iff {α : Type} (l : List (String × α)) (k : String) :
    (hashGet l k).isSome = true ↔ k ∈ l.map Prod.fst := by
  induction l with
  | nil => simp [hashGet]
  | cons p rest ih =>
    obtain ⟨n, s⟩ := p
    by_cases hn : n = k
    · simp [hashGet, hn]
    · simp [hashGet, hn, ih, Ne.symm hn]

theorem hashGet_eq_none_iff {α : Type} (l : List (String × α)) (k : String) :
    hashGet l k = none ↔ k ∉ l.map Prod.fst := by
  rw [← hashGet_isSome_iff]
  cases hashGet l k <;> simp

theorem SubdirList.lookup_isSome_iff : ∀ (l : SubdirList) (k : String),
    (l.lookup k).isSome = true ↔ k ∈ l.keys
  | .nil, k => by simp [SubdirList.lookup, SubdirList.keys]
  | .cons n s rest, k => by
    by_cases hn : n = k
    · simp [SubdirList.lookup, SubdirList.keys, hn]
    · simp [SubdirList.lookup, SubdirList.keys, hn,
        SubdirList.lookup_isSome_iff rest k, Ne.symm hn]

theorem SubdirList.lookup_eq_none_iff (l : SubdirList) (k : String) :
    l.lookup k = none ↔ k ∉ l.keys := by
  rw [← SubdirList.lookup_isSome_iff]
  cases l.lookup k <;> simp

theorem SubdirList.length_eq_keys_length : ∀ (l : SubdirList),
    l.length = l.keys.length
  | .nil => rfl
  | .cons n s rest => by
    simp [SubdirList.length, SubdirList.keys, SubdirList.length_eq_keys_length rest]

theorem nodupKeysB_iff (l : List String) : nodupKeysB l = true ↔ l.Nodup := by
  induction l with
  | nil => simp [nodupKeysB]
  | cons k rest ih =>
    simp [nodupKeysB, ih, List.nodup_cons, List.elem_iff]

theorem list_all_eq_not_any {α : Type} (l : List α) (f g : α → Bool)
    (h : ∀ x, f x = !g x) : l.all f = !l.any g := by
  induction l with
  | nil => rfl
  | cons x rest ih => simp [List.all_cons, List.any_cons, h x, ih, Bool.not_or]

/-! ## Well-formedness projections -/

theorem DirState.wf_files_nodup {d : DirState} (h : d.wf = true) :
    (d.files.map Prod.fst).Nodup := by
  obtain ⟨fs, sds⟩ := d
  simp only [DirState.wf, Bool.and_eq_true, nodupKeysB_iff] at h
  exact (List.nodup_append.1 h.1).1

theorem DirState.wf_subdir_keys_nodup {d : DirState} (h : d.wf = true) :
    d.subdirs.keys.Nodup := by
  obtain ⟨fs, sds⟩ := d
  simp only [DirState.wf, Bool.and_eq_true, nodupKeysB_iff] at h
  exact (List.nodup_append.1 h.1).2.1

theorem DirState.wf_wf_all {d : DirState} (h : d.wf = true) :
    d.subdirs.wf_all = true := by
  obtain ⟨fs, sds⟩ := d
  simp only [DirState.wf, Bool.and_eq_true] at h
  exact h.2

theorem SubdirList.lookup_wf : ∀ {l : SubdirList} {n : String} {s : DirState},
    l.wf_all = true → l.lookup n = some s → s.wf = true
  | .nil, n, s, _, h => by simp [SubdirList.lookup] at h
  | .cons n0 s0 rest, n, s, hwf, h => by
    simp only [SubdirList.wf_all, Bool.and_eq_true] at hwf
    simp only [SubdirList.lookup] at h
    by_cases hn : n0 = n
    · simp [hn] at h
      exact h ▸ hwf.1
    · simp [hn] at h
      exact SubdirList.lookup_wf hwf.2 h

/-! ## Emptiness -/

theorem DirState.eq_of_is_empty {a : DirState} (h : a.is_empty = true) :
    a = .mk [] .nil := by
  obtain ⟨fs, sds⟩ := a
  simp only [DirState.is_empty, DirState.files, DirState.subdirs, Bool.and_eq_true,
    beq_iff_eq, List.length_eq_zero] at h
  obtain ⟨h1, h2⟩ := h
  cases sds with
  | nil => simp [h1]
  | cons n s rest => simp [SubdirList.length] at h2

theorem SubdirList.all_at_least_nil : ∀ (l : SubdirList), l.all_at_least .nil = true
  | .nil => rfl
  | .cons n s rest => by
    simp [SubdirList.all_at_least, SubdirList.lookup, SubdirList.all_at_least_nil rest]

theorem DirState.at_least_empty (b : DirState) :
    b.are_contents_at_least_as_recent_as (.mk [] .nil) = true := by
  obtain ⟨fs, sds⟩ := b
  simp only [DirState.are_contents_at_least_as_recent_as, DirState.files, DirState.subdirs,
    Bool.and_eq_true]
  constructor
  · simp [List.all_eq_true, hashGet]
  · exact SubdirList.all_at_least_nil sds

theorem DirState.empty_equal_iff (b : DirState) :
    (DirState.mk [] .nil).are_contents_equal_to b = b.is_empty := by
  obtain ⟨fs, sds⟩ := b
  simp only [DirState.are_contents_equal_to, DirState.files, DirState.subdirs,
    filesEqual, SubdirList.all_contents_equal, DirState.is_empty,
    SubdirList.length, List.length_nil, List.all_nil, Bool.and_true, Bool.true_and]
  cases fs with
  | nil =>
    cases sds with
    | nil => rfl
    | cons n s rest => simp [SubdirList.length]
  | cons p rest => simp [SubdirList.length, Nat.succ_ne_zero]

/-! ## Claim C3: definition of generally-newer, and its emptiness guard -/

/-- C3: `are_contents_generally_newer_than(A,B)` equals
`!A.is_empty() && !are_any_contents_older_than(A,B) &&
are_any_contents_newer_than(A,B)`, and in particular it is false whenever
`A.is_empty()`, regardless of B. -/
theorem c3_generally_newer_definition :
    (∀ a b : DirState, a.are_contents_generally_newer_than b =
      (!a.is_empty && !a.are_any_contents_older_than b &&
        a.are_any_contents_newer_than b)) ∧
    (∀ a b : DirState, a.is_empty = true →
      a.are_contents_generally_newer_than b = false) := by
  constructor
  · intro a b
    rfl
  · intro a b h
    simp [DirState.are_contents_generally_newer_than, h]

/-- Witness for C3 at concrete snapshots: the empty snapshot is not
generally newer than `{z: mtime 1}`. -/
theorem c3_generally_newer_definition_witness :
    (DirState.mk [] .nil).are_contents_generally_newer_than
      (DirState.mk [("z", ⟨1, 5⟩)] .nil) = false :=
  c3_generally_newer_definition.2 (DirState.mk [] .nil)
    (DirState.mk [("z", ⟨1, 5⟩)] .nil) rfl

/-! ## Claim C4: empty app side against non-empty Dropbox side -/

/-- C4: when the app snapshot is empty and the Dropbox snapshot is
non-empty, `AppConfig::sync` reaches the DropboxNewerThanApp outcome (rule
3), not Conflict and not BothEmpty. -/
theorem c4_empty_app_nonempty_dropbox (a b : DirState)
    (ha : a.is_empty = true) (hb : b.is_empty = false) :
    AppConfig.sync a b = SyncOutcome.DropboxNewerThanApp := by
  rw [DirState.eq_of_is_empty ha]
  have heq : (DirState.mk [] .nil).are_contents_equal_to b = false := by
    rw [DirState.empty_equal_iff]; exact hb
  have hal : b.are_contents_at_least_as_recent_as (.mk [] .nil) = true :=
    DirState.at_least_empty b
  have hae : (DirState.mk [] .nil).is_empty = true := rfl
  simp [AppConfig.sync, heq, hal, hb, hae]

/-- Witness for C4 at the spec's Scenario 3: A empty, B = `{z: mtime 1}`. -/
theorem c4_empty_app_nonempty_dropbox_witness :
    AppConfig.sync (.mk [] .nil) (.mk [("z", ⟨1, 5⟩)] .nil) =
      SyncOutcome.DropboxNewerThanApp :=
  c4_empty_app_nonempty_dropbox (.mk [] .nil) (.mk [("z", ⟨1, 5⟩)] .nil) rfl rfl

/-! ## Claim C2: the app-side test of `AppConfig::sync` versus
`are_contents_generally_newer_than` -/

mutual

/-- `are_contents_at_least_as_recent_as` (from `src/main.rs`) is the
negation of `are_any_contents_older_than` (from `src/dir_state.rs`). -/
theorem at_least_eq_not_any_older : ∀ (a b : DirState),
    a.are_contents_at_least_as_recent_as b = !a.are_any_contents_older_than b
  | .mk files subdirs, b => by
    simp only [DirState.are_contents_at_least_as_recent_as,
      DirState.are_any_contents_older_than, Bool.not_or]
    congr 1
    · refine list_all_eq_not_any _ _ _ (fun p => ?_)
      cases hashGet b.files p.1 <;> simp
    · exact all_at_least_eq_not_any_older subdirs b.subdirs

/-- The subdirectory loops of the two predicates are likewise negations of
each other. -/
theorem all_at_least_eq_not_any_older : ∀ (l others : SubdirList),
    l.all_at_least others = !l.any_older others
  | .nil, others => rfl
  | .cons n s rest, others => by
    simp only [SubdirList.all_at_least, SubdirList.any_older, Bool.not_or]
    congr 1
    · cases h : others.lookup n with
      | none => rfl
      | some t => exact at_least_eq_not_any_older s t
    · exact all_at_least_eq_not_any_older rest others

end

/-- C2 counterexample: at A = `{x: mtime 100}`, B = `{y: mtime 50}` the
test actually evaluated by `AppConfig::sync`
(`!A.is_empty() && A.are_contents_at_least_as_recent_as(B)`) is true while
`are_contents_generally_newer_than(A,B)` is false, so the two predicates
are not equivalent. -/
theorem c2_counterexample :
    (!(DirState.mk [("x", ⟨100, 1⟩)] .nil).is_empty &&
      (DirState.mk [("x", ⟨100, 1⟩)] .nil).are_contents_at_least_as_recent_as
        (DirState.mk [("y", ⟨50, 1⟩)] .nil)) = true ∧
    (DirState.mk [("x", ⟨100, 1⟩)] .nil).are_contents_generally_newer_than
      (DirState.mk [("y", ⟨50, 1⟩)] .nil) = false := by
  constructor <;> rfl

/-- C2 amended: the app-side test evaluated by `AppConfig::sync` is, for
every pair of snapshots, equivalent to
`!A.is_empty() && !are_any_contents_older_than(A,B)` — the generally-newer
predicate without its positive-evidence conjunct
(`are_any_contents_newer_than`).  The two sides therefore differ exactly
when A is non-empty, no overlapping file is older, and no overlapping file
is strictly newer. -/
theorem c2_amended_app_newer_test (a b : DirState) :
    (!a.is_empty && a.are_contents_at_least_as_recent_as b) =
      (!a.is_empty && !a.are_any_contents_older_than b) := by
  rw [at_least_eq_not_any_older]

/-! ## Claim C1: disjoint non-empty snapshots -/

theorem SubdirList.all_at_least_of_disjoint : ∀ (l others : SubdirList),
    (l.keys.all fun k => (others.lookup k).isNone) = true →
    l.all_at_least others = true
  | .nil, others, _ => rfl
  | .cons n s rest, others, h => by
    simp only [SubdirList.keys, List.all_cons, Bool.and_eq_true] at h
    have hn : others.lookup n = none := by
      cases hl : others.lookup n
      · rfl
      · rw [hl] at h; simp [Option.isNone] at h
    simp only [SubdirList.all_at_least, hn, Bool.true_and]
    exact SubdirList.all_at_least_of_disjoint rest others h.2

theorem DirState.at_least_of_disjoint (a b : DirState)
    (hd : a.names_disjoint b = true) :
    a.are_contents_at_least_as_recent_as b = true := by
  obtain ⟨fs, sds⟩ := a
  obtain ⟨bf, bsd⟩ := b
  simp only [DirState.names_disjoint, DirState.files, DirState.subdirs,
    Bool.and_eq_true, List.all_eq_true] at hd
  simp only [DirState.are_contents_at_least_as_recent_as, DirState.files,
    DirState.subdirs, Bool.and_eq_true]
  constructor
  · rw [List.all_eq_true]
    intro p hp
    have hn : (hashGet bf p.1).isNone = true :=
      hd.1 p.1 (List.mem_map.2 ⟨p, hp, rfl⟩)
    cases hg : hashGet bf p.1
    · simp
    · rw [hg] at hn; simp [Option.isNone] at hn
  · refine SubdirList.all_at_least_of_disjoint sds bsd ?_
    rw [List.all_eq_true]
    exact fun k hk => hd.2 k hk

theorem DirState.not_equal_of_disjoint (a b : DirState)
    (hd : a.names_disjoint b = true) (ha : a.is_empty = false) :
    a.are_contents_equal_to b = false := by
  obtain ⟨fs, sds⟩ := a
  obtain ⟨bf, bsd⟩ := b
  simp only [DirState.names_disjoint, DirState.files, DirState.subdirs,
    Bool.and_eq_true, List.all_eq_true] at hd
  simp only [DirState.are_contents_equal_to, DirState.files, DirState.subdirs]
  cases fs with
  | cons p rest =>
    have hnone : hashGet bf p.1 = none := by
      have hn := hd.1 p.1 (List.mem_map.2 ⟨p, List.mem_cons_self p rest, rfl⟩)
      cases hg : hashGet bf p.1
      · rfl
      · rw [hg] at hn; simp [Option.isNone] at hn
    simp [filesEqual, hnone]
  | nil =>
    cases sds with
    | nil => simp [DirState.is_empty, DirState.files, DirState.subdirs,
        SubdirList.length] at ha
    | cons n s rest =>
      have hnone : bsd.lookup n = none := by
        have hn := hd.2 n (by simp [SubdirList.keys])
        cases hg : bsd.lookup n
        · rfl
        · rw [hg] at hn; simp [Option.isNone] at hn
      simp [SubdirList.all_contents_equal, hnone]

/-- C1 counterexample: at the spec's own Scenario 2 input,
A = `{x: mtime 100}` and B = `{y: mtime 50}` (disjoint names, both
non-empty), `AppConfig::sync` reaches AppNewerThanDropbox, not the Conflict
outcome the claim states. -/
theorem c1_counterexample :
    AppConfig.sync (.mk [("x", ⟨100, 1⟩)] .nil) (.mk [("y", ⟨50, 1⟩)] .nil) =
      SyncOutcome.AppNewerThanDropbox ∧
    AppConfig.sync (.mk [("x", ⟨100, 1⟩)] .nil) (.mk [("y", ⟨50, 1⟩)] .nil) ≠
      SyncOutcome.Conflict := by
  constructor
  · rfl
  · decide

/-- C1 amended: for snapshots with disjoint file-name and
subdirectory-name sets (no overlapping entries anywhere), both non-empty,
`AppConfig::sync` reaches the AppNewerThanDropbox outcome: with no
overlapping files at all, `are_contents_at_least_as_recent_as(A,B)` is
vacuously true, so rule 2 fires before the Conflict fallback is
considered. -/
theorem c1_amended_disjoint_sync (a b : DirState)
    (hd : a.names_disjoint b = true)
    (ha : a.is_empty = false) (_hb : b.is_empty = false) :
    AppConfig.sync a b = SyncOutcome.AppNewerThanDropbox := by
  have heq := DirState.not_equal_of_disjoint a b hd ha
  have hal := DirState.at_least_of_disjoint a b hd
  simp [AppConfig.sync, heq, hal, ha]

/-- Witness for C1's amended theorem at Scenario 2's input. -/
theorem c1_amended_disjoint_sync_witness :
    AppConfig.sync (.mk [("x", ⟨100, 1⟩)] .nil) (.mk [("y", ⟨50, 1⟩)] .nil) =
      SyncOutcome.AppNewerThanDropbox :=
  c1_amended_disjoint_sync (.mk [("x", ⟨100, 1⟩)] .nil)
    (.mk [("y", ⟨50, 1⟩)] .nil) rfl rfl rfl

/-! ## Claim C9: host-specific config keys take precedence -/

theorem get_optional_app_config_str_eq (config : TomlValue) (hostname key : String) :
    get_optional_app_config_str config hostname key =
      (match host_table_string config hostname key with
       | some s => some s
       | none => app_level_string config key) := by
  cases h1 : config.get hostname with
  | none =>
    simp [get_optional_app_config_str, host_table_string, app_level_string, h1]
  | some v =>
    cases v with
    | table t =>
      cases h2 : hashGet t key with
      | none =>
        simp [get_optional_app_config_str, host_table_string, app_level_string,
          h1, h2]
      | some w =>
        cases w <;>
          simp [get_optional_app_config_str, host_table_string,
            app_level_string, h1, h2]
    | str s =>
      simp [get_optional_app_config_str, host_table_string, app_level_string, h1]
    | boolean b =>
      simp [get_optional_app_config_str, host_table_string, app_level_string, h1]
    | other =>
      simp [get_optional_app_config_str, host_table_string, app_level_string, h1]

/-- C9: in the config lookup used by `load_config`, a string under the key
in the hostname sub-table of an app's config takes precedence over a string
under the same key at the app's top level; when the host sub-table yields
no string, the app-level string is returned; when neither exists,
`get_app_config_str` panics. -/
theorem c9_host_key_precedence (config : TomlValue) (app_name hostname key : String) :
    (∀ s, host_table_string config hostname key = some s →
      get_app_config_str config app_name hostname key = Except.ok s) ∧
    (host_table_string config hostname key = none →
      ∀ s, app_level_string config key = some s →
        get_app_config_str config app_name hostname key = Except.ok s) ∧
    (host_table_string config hostname key = none →
      app_level_string config key = none →
      ∃ msg, get_app_config_str config app_name hostname key = Except.error msg) := by
  refine ⟨fun s h => ?_, fun h s h2 => ?_, fun h h2 => ?_⟩
  · unfold get_app_config_str
    rw [get_optional_app_config_str_eq, h]
  · unfold get_app_config_str
    rw [get_optional_app_config_str_eq, h, h2]
  · unfold get_app_config_str
    rw [get_optional_app_config_str_eq, h, h2]
    exact ⟨_, rfl⟩

/-- Witness for C9 at a concrete config: with
`cfg = {myhost = {path = "H"}, path = "T"}` the host value "H" wins; with
`cfg2 = {path = "T"}` the app-level value "T" is returned; with an empty
table the lookup panics. -/
theorem c9_host_key_precedence_witness :
    get_app_config_str
      (.table [("myhost", .table [("path", .str "H")]), ("path", .str "T")])
      "app1" "myhost" "path" = Except.ok "H" ∧
    get_app_config_str (.table [("path", .str "T")]) "app1" "myhost" "path" =
      Except.ok "T" ∧
    ∃ msg, get_app_config_str (.table []) "app1" "myhost" "path" =
      Except.error msg :=
  ⟨(c9_host_key_precedence
      (.table [("myhost", .table [("path", .str "H")]), ("path", .str "T")])
      "app1" "myhost" "path").1 "H" rfl,
   (c9_host_key_precedence (.table [("path", .str "T")])
      "app1" "myhost" "path").2.1 rfl "T" rfl,
   (c9_host_key_precedence (.table []) "app1" "myhost" "path").2.2 rfl rfl⟩

/-! ## Claim C10: the directory panic in `from_metadata` is unreachable
from `from_dir` -/

theorem fromEntries_isSome : ∀ (f : FileFilter) (p : List String) (es : FSList),
    (fromEntries f p es).isSome = true
  | _, _, .nil => rfl
  | f, p, .cons name (.mk m children) rest => by
    simp only [fromEntries]
    by_cases hex : f.is_file_excluded (p ++ [name]) = true
    · simp only [hex, if_true]
      exact fromEntries_isSome f p rest
    · rw [Bool.not_eq_true] at hex
      simp only [hex, Bool.false_eq_true, if_false]
      by_cases hd : m.is_dir = true
      · simp only [hd, if_true]
        have h1 := fromEntries_isSome f (p ++ [name]) children
        have h2 := fromEntries_isSome f p rest
        cases hc1 : fromEntries f (p ++ [name]) children with
        | none => rw [hc1] at h1; simp at h1
        | some pr1 =>
          cases hc2 : fromEntries f p rest with
          | none => rw [hc2] at h2; simp at h2
          | some pr2 =>
            obtain ⟨cfs, csds⟩ := pr1
            obtain ⟨fs, sds⟩ := pr2
            rfl
      · rw [Bool.not_eq_true] at hd
        simp only [hd, Bool.false_eq_true, if_false, FileState.from_metadata]
        have h2 := fromEntries_isSome f p rest
        cases hc2 : fromEntries f p rest with
        | none => rw [hc2] at h2; simp at h2
        | some pr2 =>
          obtain ⟨fs, sds⟩ := pr2
          rfl

/-- C10: `FileState::from_metadata` panics exactly on directory metadata,
yet under `from_dir` that branch is unreachable: `from_dir` routes
directory entries into the recursive case and calls `from_metadata` only on
non-directory metadata, so a snapshot walk never panics there (`isSome`
holds on every input). -/
theorem c10_from_metadata_panic_unreachable :
    (∀ m : Metadata, m.is_dir = true → FileState.from_metadata m = none) ∧
    (∀ (f : FileFilter) (p : List String) (es : FSList),
      (DirState.from_dir f p es).isSome = true) := by
  constructor
  · intro m h
    simp [FileState.from_metadata, h]
  · intro f p es
    unfold DirState.from_dir
    have h := fromEntries_isSome f p es
    cases hc : fromEntries f p es with
    | none => rw [hc] at h; simp at h
    | some pr => obtain ⟨fs, sds⟩ := pr; rfl

/-- Witness for C10: directory metadata makes `from_metadata` panic, and a
concrete walk containing a directory entry succeeds. -/
theorem c10_from_metadata_panic_unreachable_witness :
    FileState.from_metadata ⟨true, 0, 7⟩ = none ∧
    (DirState.from_dir ⟨none⟩ []
      (.cons "d" (.mk ⟨true, 0, 7⟩ (.cons "x" (.mk ⟨false, 3, 9⟩ .nil) .nil))
        .nil)).isSome = true :=
  ⟨c10_from_metadata_panic_unreachable.1 ⟨true, 0, 7⟩ rfl,
   c10_from_metadata_panic_unreachable.2 ⟨none⟩ []
     (.cons "d" (.mk ⟨true, 0, 7⟩ (.cons "x" (.mk ⟨false, 3, 9⟩ .nil) .nil))
       .nil)⟩

/-! ## Claims C6 and C7: characterization of the directional-recency
predicates by same-relative-path evidence -/

theorem anyFileNewer_iff {a b : List (String × FileState)}
    (hnd : (a.map Prod.fst).Nodup) :
    anyFileNewer a b = true ↔
      ∃ k sa sb, hashGet a k = some sa ∧ hashGet b k = some sb ∧
        sb.modified < sa.modified := by
  constructor
  · intro h
    rw [anyFileNewer, List.any_eq_true] at h
    obtain ⟨p, hp, hcond⟩ := h
    cases hg : hashGet b p.1 with
    | none => rw [hg] at hcond; simp at hcond
    | some t =>
      rw [hg] at hcond
      simp only [decide_eq_true_eq] at hcond
      refine ⟨p.1, p.2, t, ?_, hg, hcond⟩
      exact hashGet_eq_of_mem hnd (by rw [Prod.mk.eta]; exact hp)
  · rintro ⟨k, sa, sb, h1, h2, h3⟩
    rw [anyFileNewer, List.any_eq_true]
    exact ⟨(k, sa), hashGet_mem h1, by simp [h2, h3]⟩

theorem anyFileOlder_iff {a b : List (String × FileState)}
    (hnd : (a.map Prod.fst).Nodup) :
    anyFileOlder a b = true ↔
      ∃ k sa sb, hashGet a k = some sa ∧ hashGet b k = some sb ∧
        sa.modified < sb.modified := by
  constructor
  · intro h
    rw [anyFileOlder, List.any_eq_true] at h
    obtain ⟨p, hp, hcond⟩ := h
    cases hg : hashGet b p.1 with
    | none => rw [hg] at hcond; simp at hcond
    | some t =>
      rw [hg] at hcond
      simp only [decide_eq_true_eq] at hcond
      refine ⟨p.1, p.2, t, ?_, hg, hcond⟩
      exact hashGet_eq_of_mem hnd (by rw [Prod.mk.eta]; exact hp)
  · rintro ⟨k, sa, sb, h1, h2, h3⟩
    rw [anyFileOlder, List.any_eq_true]
    exact ⟨(k, sa), hashGet_mem h1, by simp [h2, h3]⟩

theorem SubdirList.any_newer_iff : ∀ {l others : SubdirList}, l.keys.Nodup →
    (l.any_newer others = true ↔
      ∃ n s t, l.lookup n = some s ∧ others.lookup n = some t ∧
        s.are_any_contents_newer_than t = true)
  | .nil, others, _ => by
    simp [SubdirList.any_newer, SubdirList.lookup]
  | .cons n0 s0 rest, others, hnd => by
    simp only [SubdirList.keys, List.nodup_cons] at hnd
    simp only [SubdirList.any_newer, Bool.or_eq_true]
    constructor
    · rintro (hhead | htail)
      · cases ho : others.lookup n0 with
        | none => rw [ho] at hhead; simp at hhead
        | some t =>
          rw [ho] at hhead
          exact ⟨n0, s0, t, by simp [SubdirList.lookup], ho, hhead⟩
      · obtain ⟨n, s, t, hl, ho, hc⟩ :=
          (SubdirList.any_newer_iff hnd.2).1 htail
        have hne : n0 ≠ n := by
          intro he
          exact hnd.1 (he ▸ (SubdirList.lookup_isSome_iff rest n).1 (by simp [hl]))
        exact ⟨n, s, t, by simp [SubdirList.lookup, hne]; exact hl, ho, hc⟩
    · rintro ⟨n, s, t, hl, ho, hc⟩
      simp only [SubdirList.lookup] at hl
      by_cases hne : n0 = n
      · left
        rw [if_pos hne] at hl
        obtain rfl : s0 = s := by injection hl
        rw [← hne] at ho
        rw [ho]
        exact hc
      · right
        rw [if_neg hne] at hl
        exact (SubdirList.any_newer_iff hnd.2).2 ⟨n, s, t, hl, ho, hc⟩

theorem SubdirList.any_older_iff : ∀ {l others : SubdirList}, l.keys.Nodup →
    (l.any_older others = true ↔
      ∃ n s t, l.lookup n = some s ∧ others.lookup n = some t ∧
        s.are_any_contents_older_than t = true)
  | .nil, others, _ => by
    simp [SubdirList.any_older, SubdirList.lookup]
  | .cons n0 s0 rest, others, hnd => by
    simp only [SubdirList.keys, List.nodup_cons] at hnd
    simp only [SubdirList.any_older, Bool.or_eq_true]
    constructor
    · rintro (hhead | htail)
      · cases ho : others.lookup n0 with
        | none => rw [ho] at hhead; simp at hhead
        | some t =>
          rw [ho] at hhead
          exact ⟨n0, s0, t, by simp [SubdirList.lookup], ho, hhead⟩
      · obtain ⟨n, s, t, hl, ho, hc⟩ :=
          (SubdirList.any_older_iff hnd.2).1 htail
        have hne : n0 ≠ n := by
          intro he
          exact hnd.1 (he ▸ (SubdirList.lookup_isSome_iff rest n).1 (by simp [hl]))
        exact ⟨n, s, t, by simp [SubdirList.lookup, hne]; exact hl, ho, hc⟩
    · rintro ⟨n, s, t, hl, ho, hc⟩
      simp only [SubdirList.lookup] at hl
      by_cases hne : n0 = n
      · left
        rw [if_pos hne] at hl
        obtain rfl : s0 = s := by injection hl
        rw [← hne] at ho
        rw [ho]
        exact hc
      · right
        rw [if_neg hne] at hl
        exact (SubdirList.any_older_iff hnd.2).2 ⟨n, s, t, hl, ho, hc⟩

theorem NewerEvidence_decomp (a b : DirState) :
    NewerEvidence a b ↔
      ((∃ k sa sb, hashGet a.files k = some sa ∧ hashGet b.files k = some sb ∧
          sb.modified < sa.modified) ∨
       (∃ n s t, a.subdirs.lookup n = some s ∧ b.subdirs.lookup n = some t ∧
          NewerEvidence s t)) := by
  constructor
  · rintro ⟨dirs, name, sa, sb, h1, h2, h3⟩
    cases dirs with
    | nil => exact Or.inl ⟨name, sa, sb, h1, h2, h3⟩
    | cons d rest =>
      simp only [DirState.getFile] at h1 h2
      cases hl : a.subdirs.lookup d with
      | none => rw [hl] at h1; simp at h1
      | some s =>
        rw [hl] at h1
        cases ho : b.subdirs.lookup d with
        | none => rw [ho] at h2; simp at h2
        | some t =>
          rw [ho] at h2
          exact Or.inr ⟨d, s, t, hl, ho, rest, name, sa, sb, h1, h2, h3⟩
  · rintro (⟨k, sa, sb, h1, h2, h3⟩ |
      ⟨n, s, t, hl, ho, dirs, name, sa, sb, h1, h2, h3⟩)
    · exact ⟨[], k, sa, sb, h1, h2, h3⟩
    · exact ⟨n :: dirs, name, sa, sb, by simp [DirState.getFile, hl]; exact h1,
        by simp [DirState.getFile, ho]; exact h2, h3⟩

theorem OlderEvidence_decomp (a b : DirState) :
    OlderEvidence a b ↔
      ((∃ k sa sb, hashGet a.files k = some sa ∧ hashGet b.files k = some sb ∧
          sa.modified < sb.modified) ∨
       (∃ n s t, a.subdirs.lookup n = some s ∧ b.subdirs.lookup n = some t ∧
          OlderEvidence s t)) := by
  constructor
  · rintro ⟨dirs, name, sa, sb, h1, h2, h3⟩
    cases dirs with
    | nil => exact Or.inl ⟨name, sa, sb, h1, h2, h3⟩
    | cons d rest =>
      simp only [DirState.getFile] at h1 h2
      cases hl : a.subdirs.lookup d with
      | none => rw [hl] at h1; simp at h1
      | some s =>
        rw [hl] at h1
        cases ho : b.subdirs.lookup d with
        | none => rw [ho] at h2; simp at h2
        | some t =>
          rw [ho] at h2
          exact Or.inr ⟨d, s, t, hl, ho, rest, name, sa, sb, h1, h2, h3⟩
  · rintro (⟨k, sa, sb, h1, h2, h3⟩ |
      ⟨n, s, t, hl, ho, dirs, name, sa, sb, h1, h2, h3⟩)
    · exact ⟨[], k, sa, sb, h1, h2, h3⟩
    · exact ⟨n :: dirs, name, sa, sb, by simp [DirState.getFile, hl]; exact h1,
        by simp [DirState.getFile, ho]; exact h2, h3⟩

mutual

theorem newer_iff_evidence : ∀ (a : DirState), a.wf = true → ∀ (b : DirState),
    (a.are_any_contents_newer_than b = true ↔ NewerEvidence a b)
  | .mk files subdirs, hwf, b => by
    have hfnd : (files.map Prod.fst).Nodup :=
      DirState.wf_files_nodup hwf
    have hknd : subdirs.keys.Nodup :=
      DirState.wf_subdir_keys_nodup hwf
    have hall : subdirs.wf_all = true :=
      DirState.wf_wf_all hwf
    rw [NewerEvidence_decomp]
    show (anyFileNewer files b.files || subdirs.any_newer b.subdirs) = true ↔ _
    rw [Bool.or_eq_true, anyFileNewer_iff hfnd, SubdirList.any_newer_iff hknd]
    refine or_congr Iff.rfl ⟨?_, ?_⟩
    · rintro ⟨n, s, t, hl, ho, hc⟩
      exact ⟨n, s, t, hl, ho,
        (newer_iff_evidence_all subdirs hall n s hl t).1 hc⟩
    · rintro ⟨n, s, t, hl, ho, hev⟩
      exact ⟨n, s, t, hl, ho,
        (newer_iff_evidence_all subdirs hall n s hl t).2 hev⟩

theorem newer_iff_evidence_all : ∀ (l : SubdirList), l.wf_all = true →
    ∀ (n : String) (s : DirState), l.lookup n = some s → ∀ (b : DirState),
      (s.are_any_contents_newer_than b = true ↔ NewerEvidence s b)
  | .nil, _, n, s, h => by simp [SubdirList.lookup] at h
  | .cons n0 s0 rest, hwf, n, s, h => by
    simp only [SubdirList.wf_all, Bool.and_eq_true] at hwf
    simp only [SubdirList.lookup] at h
    by_cases hne : n0 = n
    · rw [if_pos hne] at h
      obtain rfl : s0 = s := by injection h
      exact newer_iff_evidence s0 hwf.1
    · rw [if_neg hne] at h
      exact newer_iff_evidence_all rest hwf.2 n s h

end

mutual

theorem older_iff_evidence : ∀ (a : DirState), a.wf = true → ∀ (b : DirState),
    (a.are_any_contents_older_than b = true ↔ OlderEvidence a b)
  | .mk files subdirs, hwf, b => by
    have hfnd : (files.map Prod.fst).Nodup :=
      DirState.wf_files_nodup hwf
    have hknd : subdirs.keys.Nodup :=
      DirState.wf_subdir_keys_nodup hwf
    have hall : subdirs.wf_all = true :=
      DirState.wf_wf_all hwf
    rw [OlderEvidence_decomp]
    show (anyFileOlder files b.files || subdirs.any_older b.subdirs) = true ↔ _
    rw [Bool.or_eq_true, anyFileOlder_iff hfnd, SubdirList.any_older_iff hknd]
    refine or_congr Iff.rfl ⟨?_, ?_⟩
    · rintro ⟨n, s, t, hl, ho, hc⟩
      exact ⟨n, s, t, hl, ho,
        (older_iff_evidence_all subdirs hall n s hl t).1 hc⟩
    · rintro ⟨n, s, t, hl, ho, hev⟩
      exact ⟨n, s, t, hl, ho,
        (older_iff_evidence_all subdirs hall n s hl t).2 hev⟩

theorem older_iff_evidence_all : ∀ (l : SubdirList), l.wf_all = true →
    ∀ (n : String) (s : DirState), l.lookup n = some s → ∀ (b : DirState),
      (s.are_any_contents_older_than b = true ↔ OlderEvidence s b)
  | .nil, _, n, s, h => by simp [SubdirList.lookup] at h
  | .cons n0 s0 rest, hwf, n, s, h => by
    simp only [SubdirList.wf_all, Bool.and_eq_true] at hwf
    simp only [SubdirList.lookup] at h
    by_cases hne : n0 = n
    · rw [if_pos hne] at h
      obtain rfl : s0 = s := by injection h
      exact older_iff_evidence s0 hwf.1
    · rw [if_neg hne] at h
      exact older_iff_evidence_all rest hwf.2 n s h

end

/-- C6: for well-formed snapshots, `are_any_contents_newer_than(a, b)` is
true exactly when some file present in both trees at the same relative path
(through same-named subdirectories, at any depth) has a strictly greater
modification time in `a` than in `b`; entries present on only one side
contribute no evidence. -/
theorem c6_any_newer_characterization (a b : DirState)
    (ha : a.wf = true) (_hb : b.wf = true) :
    a.are_any_contents_newer_than b = true ↔ NewerEvidence a b :=
  newer_iff_evidence a ha b

/-- Witness for C6 at A = `{x: mtime 100}`, B = `{x: mtime 50, y: mtime 60}`:
the shared file "x" is newer in A, and the characterization applies. -/
theorem c6_any_newer_characterization_witness :
    (DirState.mk [("x", ⟨100, 1⟩)] .nil).are_any_contents_newer_than
        (DirState.mk [("x", ⟨50, 1⟩), ("y", ⟨60, 1⟩)] .nil) = true ↔
      NewerEvidence (DirState.mk [("x", ⟨100, 1⟩)] .nil)
        (DirState.mk [("x", ⟨50, 1⟩), ("y", ⟨60, 1⟩)] .nil) :=
  c6_any_newer_characterization
    (DirState.mk [("x", ⟨100, 1⟩)] .nil)
    (DirState.mk [("x", ⟨50, 1⟩), ("y", ⟨60, 1⟩)] .nil) rfl rfl

/-- C7: for well-formed snapshots, `are_any_contents_older_than(a, b)`
returns the same value as `are_any_contents_newer_than(b, a)`. -/
theorem c7_older_is_mirror_of_newer (a b : DirState)
    (ha : a.wf = true) (hb : b.wf = true) :
    a.are_any_contents_older_than b = b.are_any_contents_newer_than a := by
  have hmir : OlderEvidence a b ↔ NewerEvidence b a := by
    constructor
    · rintro ⟨dirs, name, sa, sb, h1, h2, h3⟩
      exact ⟨dirs, name, sb, sa, h2, h1, h3⟩
    · rintro ⟨dirs, name, sb, sa, h2, h1, h3⟩
      exact ⟨dirs, name, sa, sb, h1, h2, h3⟩
  cases hx : a.are_any_contents_older_than b with
  | true =>
    exact ((newer_iff_evidence b hb a).2
      (hmir.1 ((older_iff_evidence a ha b).1 hx))).symm
  | false =>
    cases hy : b.are_any_contents_newer_than a with
    | false => rfl
    | true =>
      rw [← hx]
      exact ((older_iff_evidence a ha b).2
        (hmir.2 ((newer_iff_evidence b hb a).1 hy))).symm ▸ rfl

/-- Witness for C7 at A = `{x: mtime 50}`, B = `{x: mtime 100}`. -/
theorem c7_older_is_mirror_of_newer_witness :
    (DirState.mk [("x", ⟨50, 1⟩)] .nil).are_any_contents_older_than
        (DirState.mk [("x", ⟨100, 1⟩)] .nil) =
      (DirState.mk [("x", ⟨100, 1⟩)] .nil).are_any_contents_newer_than
        (DirState.mk [("x", ⟨50, 1⟩)] .nil) :=
  c7_older_is_mirror_of_newer (DirState.mk [("x", ⟨50, 1⟩)] .nil)
    (DirState.mk [("x", ⟨100, 1⟩)] .nil) rfl rfl

/-! ## Claim C8: symmetry of structural equality -/

theorem keys_complete_of_subset {l1 l2 : List String} (h1 : l1.Nodup)
    (hsub : l1 ⊆ l2) (hlen : l1.length = l2.length) :
    ∀ k, k ∈ l2 → k ∈ l1 := by
  have hsp : List.Subperm l1 l2 := List.subperm_of_subset h1 hsub
  have hperm : List.Perm l1 l2 := hsp.perm_of_length_le (le_of_eq hlen.symm)
  exact fun k hk => hperm.mem_iff.2 hk

theorem filesEqual_true_iff {a b : List (String × FileState)} :
    filesEqual a b = true ↔
      a.length = b.length ∧ ∀ p ∈ a, hashGet b p.1 = some p.2 := by
  rw [filesEqual, Bool.and_eq_true, beq_iff_eq, List.all_eq_true]
  refine and_congr Iff.rfl (forall_congr' fun p => imp_congr Iff.rfl ?_)
  cases hg : hashGet b p.1 with
  | none => simp
  | some v => simp [eq_comm]

theorem filesEqual_symm_true {a b : List (String × FileState)}
    (ha : (a.map Prod.fst).Nodup) (hb : (b.map Prod.fst).Nodup)
    (h : filesEqual a b = true) : filesEqual b a = true := by
  rw [filesEqual_true_iff] at h ⊢
  obtain ⟨hlen, hall⟩ := h
  have hsub : a.map Prod.fst ⊆ b.map Prod.fst := by
    intro k hk
    rw [← hashGet_isSome_iff] at hk ⊢
    cases hg : hashGet a k with
    | none => rw [hg] at hk; simp at hk
    | some v =>
      have := hall (k, v) (hashGet_mem hg)
      simp [this]
  have hcomp := keys_complete_of_subset ha hsub (by simp [hlen])
  refine ⟨hlen.symm, fun q hq => ?_⟩
  have hqa : q.1 ∈ a.map Prod.fst :=
    hcomp q.1 (List.mem_map.2 ⟨q, hq, rfl⟩)
  rw [← hashGet_isSome_iff] at hqa
  cases hg : hashGet a q.1 with
  | none => rw [hg] at hqa; simp at hqa
  | some v =>
    have hbv : hashGet b q.1 = some v := hall (q.1, v) (hashGet_mem hg)
    have hbq : hashGet b q.1 = some q.2 :=
      hashGet_eq_of_mem hb (by rw [Prod.mk.eta]; exact hq)
    rw [hbv] at hbq
    obtain rfl : v = q.2 := by injection hbq
    rfl

theorem SubdirList.all_contents_equal_lookup : ∀ {l m : SubdirList},
    l.all_contents_equal m = true → ∀ {n : String} {s : DirState},
      l.lookup n = some s →
      ∃ t, m.lookup n = some t ∧ s.are_contents_equal_to t = true
  | .nil, m, _, n, s, h => by simp [SubdirList.lookup] at h
  | .cons n0 s0 rest, m, hall, n, s, h => by
    simp only [SubdirList.all_contents_equal, Bool.and_eq_true] at hall
    simp only [SubdirList.lookup] at h
    by_cases hne : n0 = n
    · rw [if_pos hne] at h
      obtain rfl : s0 = s := by injection h
      obtain ⟨h1, _⟩ := hall
      cases ht : m.lookup n0 with
      | none => rw [ht] at h1; simp at h1
      | some t =>
        rw [ht] at h1
        exact ⟨t, hne ▸ ht, h1⟩
    · rw [if_neg hne] at h
      exact SubdirList.all_contents_equal_lookup hall.2 h

theorem SubdirList.all_contents_equal_of_lookup : ∀ (l m : SubdirList),
    l.keys.Nodup →
    (∀ n s, l.lookup n = some s →
      ∃ t, m.lookup n = some t ∧ s.are_contents_equal_to t = true) →
    l.all_contents_equal m = true
  | .nil, m, _, _ => rfl
  | .cons n0 s0 rest, m, hnd, h => by
    simp only [SubdirList.keys, List.nodup_cons] at hnd
    simp only [SubdirList.all_contents_equal, Bool.and_eq_true]
    constructor
    · obtain ⟨t, ht, heq⟩ := h n0 s0 (by simp [SubdirList.lookup])
      rw [ht]
      exact heq
    · refine SubdirList.all_contents_equal_of_lookup rest m hnd.2 fun n s hl => ?_
      have hne : n0 ≠ n := by
        intro he
        exact hnd.1 (he ▸ (SubdirList.lookup_isSome_iff rest n).1 (by simp [hl]))
      exact h n s (by simp [SubdirList.lookup, hne]; exact hl)

theorem SubdirList.lookup_of_mem_keys {l : SubdirList} {k : String}
    (h : k ∈ l.keys) : ∃ s, l.lookup k = some s := by
  have := (SubdirList.lookup_isSome_iff l k).2 h
  cases hg : l.lookup k with
  | none => rw [hg] at this; simp at this
  | some s => exact ⟨s, rfl⟩

mutual

theorem equal_symm_main : ∀ (a : DirState), a.wf = true →
    ∀ (b : DirState), b.wf = true →
    a.are_contents_equal_to b = true → b.are_contents_equal_to a = true
  | .mk fa sa, ha, .mk fb sb, hb, h => by
    have hfa : (fa.map Prod.fst).Nodup :=
      DirState.wf_files_nodup ha
    have hfb : (fb.map Prod.fst).Nodup :=
      DirState.wf_files_nodup hb
    have hka : sa.keys.Nodup :=
      DirState.wf_subdir_keys_nodup ha
    have hwa : sa.wf_all = true := DirState.wf_wf_all ha
    have hwb : sb.wf_all = true := DirState.wf_wf_all hb
    have hshow : ∀ (x : DirState) (y : DirState),
        x.are_contents_equal_to y =
          (filesEqual x.files y.files && (x.subdirs.length == y.subdirs.length) &&
            x.subdirs.all_contents_equal y.subdirs) := by
      intro x y
      obtain ⟨xf, xs⟩ := x
      rfl
    rw [hshow] at h ⊢
    simp only [DirState.files, DirState.subdirs, Bool.and_eq_true] at h ⊢
    obtain ⟨⟨hfeq, hlen⟩, hsubs⟩ := h
    rw [beq_iff_eq] at hlen
    refine ⟨⟨filesEqual_symm_true hfa hfb hfeq, by simp [hlen]⟩, ?_⟩
    have hkeysub : sa.keys ⊆ sb.keys := by
      intro k hk
      obtain ⟨s, hs⟩ := SubdirList.lookup_of_mem_keys hk
      obtain ⟨t, ht, _⟩ := SubdirList.all_contents_equal_lookup hsubs hs
      exact (SubdirList.lookup_isSome_iff sb k).1 (by simp [ht])
    have hklen : sa.keys.length = sb.keys.length := by
      rw [← SubdirList.length_eq_keys_length, ← SubdirList.length_eq_keys_length]
      exact hlen
    have hcomp := keys_complete_of_subset hka hkeysub hklen
    have hkb : sb.keys.Nodup :=
      DirState.wf_subdir_keys_nodup hb
    refine SubdirList.all_contents_equal_of_lookup sb sa hkb fun n t hlt => ?_
    have hna : n ∈ sa.keys :=
      hcomp n ((SubdirList.lookup_isSome_iff sb n).1 (by simp [hlt]))
    obtain ⟨s, hs⟩ := SubdirList.lookup_of_mem_keys hna
    obtain ⟨t2, ht2, heq⟩ := SubdirList.all_contents_equal_lookup hsubs hs
    rw [hlt] at ht2
    obtain rfl : t = t2 := by injection ht2
    have hswf : s.wf = true := SubdirList.lookup_wf hwa hs
    have htwf : t.wf = true := SubdirList.lookup_wf hwb hlt
    exact ⟨s, hs, equal_symm_all sa hwa n s hs t htwf heq⟩

theorem equal_symm_all : ∀ (l : SubdirList), l.wf_all = true →
    ∀ (n : String) (s : DirState), l.lookup n = some s →
    ∀ (b : DirState), b.wf = true →
    s.are_contents_equal_to b = true → b.are_contents_equal_to s = true
  | .nil, _, n, s, h => by simp [SubdirList.lookup] at h
  | .cons n0 s0 rest, hwf, n, s, h => by
    simp only [SubdirList.wf_all, Bool.and_eq_true] at hwf
    simp only [SubdirList.lookup] at h
    by_cases hne : n0 = n
    · rw [if_pos hne] at h
      obtain rfl : s0 = s := by injection h
      exact equal_symm_main s0 hwf.1
    · rw [if_neg hne] at h
      exact equal_symm_all rest hwf.2 n s h

end

/-- C8: for well-formed snapshots, structural equality is symmetric:
`are_contents_equal_to(A, B)` returns the same value as
`are_contents_equal_to(B, A)`. -/
theorem c8_equal_symmetric (a b : DirState)
    (ha : a.wf = true) (hb : b.wf = true) :
    a.are_contents_equal_to b = b.are_contents_equal_to a := by
  cases hx : a.are_contents_equal_to b with
  | true => exact (equal_symm_main a ha b hb hx).symm
  | false =>
    cases hy : b.are_contents_equal_to a with
    | false => rfl
    | true => exact absurd (equal_symm_main b hb a ha hy) (by simp [hx])

/-- Witness for C8 at A = `{x: mtime 1}` with a subdirectory, B = `{}`. -/
theorem c8_equal_symmetric_witness :
    (DirState.mk [("x", ⟨1, 2⟩)] (.cons "d" (.mk [] .nil) .nil)).are_contents_equal_to
        (DirState.mk [] .nil) =
      (DirState.mk [] .nil).are_contents_equal_to
        (DirState.mk [("x", ⟨1, 2⟩)] (.cons "d" (.mk [] .nil) .nil)) :=
  c8_equal_symmetric
    (DirState.mk [("x", ⟨1, 2⟩)] (.cons "d" (.mk [] .nil) .nil))
    (DirState.mk [] .nil) rfl rfl

/-! ## Claim C5, part 1: filesystem-list lemmas -/

theorem FSList.set_lookup : ∀ (l : FSList) (k : String) (e : FSEntry) (n : String),
    (l.set k e).lookup n = if k = n then some e else l.lookup n
  | .nil, k, e, n => by
    simp only [FSList.set, FSList.lookup]
  | .cons n0 e0 rest, k, e, n => by
    simp only [FSList.set]
    by_cases h0 : n0 = k
    · subst h0
      by_cases h1 : n0 = n
      · simp [FSList.lookup, h1]
      · simp [FSList.lookup, h1]
    · simp only [if_neg h0, FSList.lookup]
      by_cases h1 : n0 = n
      · subst h1
        have hkn : k ≠ n0 := fun he => h0 he.symm
        simp [hkn]
      · simp only [if_neg h1]
        exact FSList.set_lookup rest k e n

theorem FSList.set_keys_sub : ∀ (l : FSList) (k : String) (e : FSEntry) (n : String),
    n ∈ (l.set k e).keys → n = k ∨ n ∈ l.keys
  | .nil, k, e, n => by
    simp [FSList.set, FSList.keys]
  | .cons n0 e0 rest, k, e, n => by
    simp only [FSList.set]
    by_cases h0 : n0 = k
    · simp only [if_pos h0, FSList.keys, List.mem_cons]
      rintro (h | h)
      · exact Or.inl (h.trans h0)
      · exact Or.inr (Or.inr h)
    · simp only [if_neg h0, FSList.keys, List.mem_cons]
      rintro (h | h)
      · exact Or.inr (Or.inl h)
      · rcases FSList.set_keys_sub rest k e n h with h2 | h2
        · exact Or.inl h2
        · exact Or.inr (Or.inr h2)

theorem FSList.set_wf : ∀ (l : FSList) (k : String) (m : Metadata) (c : FSList),
    l.wf = true → c.wf = true → (l.set k (.mk m c)).wf = true
  | .nil, k, m, c, _, hc => by
    simp [FSList.set, FSList.wf, FSList.keys, hc]
  | .cons n0 (.mk m0 c0) rest, k, m, c, hl, hc => by
    simp only [FSList.wf, Bool.and_eq_true] at hl
    obtain ⟨⟨hn0, hc0⟩, hrest⟩ := hl
    simp only [FSList.set]
    by_cases h0 : n0 = k
    · simp only [if_pos h0, FSList.wf, Bool.and_eq_true]
      exact ⟨⟨hn0, hc⟩, hrest⟩
    · simp only [if_neg h0, FSList.wf, Bool.and_eq_true]
      refine ⟨⟨?_, hc0⟩, FSList.set_wf rest k m c hrest hc⟩
      have hn0m : n0 ∉ rest.keys := by simpa using hn0
      have hnm : n0 ∉ (rest.set k (.mk m c)).keys := by
        intro hmem
        rcases FSList.set_keys_sub rest k _ n0 hmem with h2 | h2
        · exact h0 h2
        · exact hn0m h2
      simpa using hnm

theorem FSList.lookup_children_wf : ∀ {l : FSList} {n : String} {m : Metadata}
    {c : FSList}, l.wf = true → l.lookup n = some (.mk m c) → c.wf = true
  | .nil, n, m, c, _, h => by simp [FSList.lookup] at h
  | .cons n0 (.mk m0 c0) rest, n, m, c, hwf, h => by
    simp only [FSList.wf, Bool.and_eq_true] at hwf
    simp only [FSList.lookup] at h
    by_cases h0 : n0 = n
    · rw [if_pos h0] at h
      have hc : c0 = c := by
        injection h with h2
        injection h2
      exact hc ▸ hwf.1.2
    · rw [if_neg h0] at h
      exact FSList.lookup_children_wf hwf.2 h

theorem FSList.keys_nodup_head {n : String} {e : FSEntry} {rest : FSList}
    (h : (FSList.cons n e rest).wf = true) :
    n ∉ rest.keys ∧ rest.wf = true := by
  obtain ⟨m, c⟩ := e
  simp only [FSList.wf, Bool.and_eq_true] at h
  obtain ⟨⟨hn, _⟩, hr⟩ := h
  refine ⟨?_, hr⟩
  simpa using hn

theorem FSList.wf_children {n : String} {m : Metadata} {c : FSList} {rest : FSList}
    (h : (FSList.cons n (.mk m c) rest).wf = true) : c.wf = true := by
  simp only [FSList.wf, Bool.and_eq_true] at h
  exact h.1.2

theorem remove_extraneous_keys_sub :
    ∀ (s : DirState) (f : FileFilter) (p : List String) (d : FSList) (n : String),
    n ∈ (s.remove_extraneous_files_from f p d).keys → n ∈ d.keys
  | s, f, p, .nil, n => by
    simp [DirState.remove_extraneous_files_from]
  | s, f, p, .cons name (.mk m children) rest, n => by
    simp only [DirState.remove_extraneous_files_from]
    by_cases hex : f.is_file_excluded (p ++ [name]) = true
    · simp only [if_pos hex, FSList.keys, List.mem_cons]
      rintro (h | h)
      · exact Or.inl h
      · exact Or.inr (remove_extraneous_keys_sub s f p rest n h)
    · rw [if_neg hex]
      by_cases hd : m.is_dir = true
      · simp only [if_pos hd]
        cases hl : s.subdirs.lookup name with
        | some sub =>
          simp only [FSList.keys, List.mem_cons]
          rintro (h | h)
          · exact Or.inl h
          · exact Or.inr (remove_extraneous_keys_sub s f p rest n h)
        | none =>
          intro h
          exact List.mem_cons_of_mem _ (remove_extraneous_keys_sub s f p rest n h)
      · simp only [if_neg hd]
        by_cases hf : (hashGet s.files name).isSome = true
        · simp only [if_pos hf, FSList.keys, List.mem_cons]
          rintro (h | h)
          · exact Or.inl h
          · exact Or.inr (remove_extraneous_keys_sub s f p rest n h)
        · simp only [if_neg hf]
          intro h
          exact List.mem_cons_of_mem _ (remove_extraneous_keys_sub s f p rest n h)

theorem remove_extraneous_wf :
    ∀ (s : DirState) (f : FileFilter) (p : List String) (d : FSList),
    d.wf = true → (s.remove_extraneous_files_from f p d).wf = true
  | s, f, p, .nil, _ => rfl
  | s, f, p, .cons name (.mk m children) rest, hwf => by
    have hhead := FSList.keys_nodup_head hwf
    have hcwf : children.wf = true := FSList.wf_children hwf
    have hrest := remove_extraneous_wf s f p rest hhead.2
    have hnot : name ∉ (s.remove_extraneous_files_from f p rest).keys :=
      fun h => hhead.1 (remove_extraneous_keys_sub s f p rest name h)
    have hnotc : ((s.remove_extraneous_files_from f p rest).keys.contains name) = false := by
      simpa using hnot
    simp only [DirState.remove_extraneous_files_from]
    by_cases hex : f.is_file_excluded (p ++ [name]) = true
    · simp only [if_pos hex, FSList.wf, hnotc, Bool.not_false, Bool.and_eq_true]
      exact ⟨⟨trivial, hcwf⟩, hrest⟩
    · rw [if_neg hex]
      by_cases hd : m.is_dir = true
      · simp only [if_pos hd]
        cases hl : s.subdirs.lookup name with
        | some sub =>
          simp only [FSList.wf, hnotc, Bool.not_false, Bool.and_eq_true]
          exact ⟨⟨trivial, remove_extraneous_wf sub f (p ++ [name]) children hcwf⟩, hrest⟩
        | none => exact hrest
      · simp only [if_neg hd]
        by_cases hfi : (hashGet s.files name).isSome = true
        · simp only [if_pos hfi, FSList.wf, hnotc, Bool.not_false, Bool.and_eq_true]
          exact ⟨⟨trivial, hcwf⟩, hrest⟩
        · simp only [if_neg hfi]
          exact hrest

/-! ## Claim C5, part 2: snapshot-construction characterization -/

theorem FSList.lookup_isSome_iff_mem : ∀ (l : FSList) (k : String),
    (l.lookup k).isSome = true ↔ k ∈ l.keys
  | .nil, k => by simp [FSList.lookup, FSList.keys]
  | .cons n e rest, k => by
    by_cases hn : n = k
    · simp [FSList.lookup, FSList.keys, hn]
    · simp [FSList.lookup, FSList.keys, hn, FSList.lookup_isSome_iff_mem rest k,
        Ne.symm hn]

theorem FSList.lookup_none_iff_not_mem (l : FSList) (k : String) :
    l.lookup k = none ↔ k ∉ l.keys := by
  rw [← FSList.lookup_isSome_iff_mem]
  cases l.lookup k <;> simp

theorem included_of_not_excluded {f : FileFilter} {p : List String}
    (h : f.is_file_excluded p = false) : f.is_file_included p = true := by
  simpa [FileFilter.is_file_excluded] using h

theorem fromEntries_spec : ∀ {f : FileFilter} {p : List String} {es : FSList}
    {fs : List (String × FileState)} {sds : SubdirList}, es.wf = true →
    fromEntries f p es = some (fs, sds) →
    (∀ k, k ∈ fs.map Prod.fst ++ sds.keys → k ∈ es.keys) ∧
    (DirState.mk fs sds).wf = true ∧
    (DirState.mk fs sds).all_included f p = true ∧
    (∀ n, hashGet fs n =
      (match es.lookup n with
       | some (.mk m _) =>
         if f.is_file_excluded (p ++ [n]) = true then none
         else if m.is_dir = true then none
         else some ⟨m.modified, m.len⟩
       | none => none)) ∧
    (∀ n, sds.lookup n =
      (match es.lookup n with
       | some (.mk m children) =>
         if f.is_file_excluded (p ++ [n]) = true then none
         else if m.is_dir = true then DirState.from_dir f (p ++ [n]) children
         else none
       | none => none))
  | f, p, .nil, fs, sds, _, h => by
    simp only [fromEntries, Option.some.injEq, Prod.mk.injEq] at h
    obtain ⟨rfl, rfl⟩ := h
    refine ⟨by simp [SubdirList.keys], rfl, rfl, ?_, ?_⟩
    · intro n
      simp [hashGet, FSList.lookup]
    · intro n
      simp [SubdirList.lookup, FSList.lookup]
  | f, p, .cons name (.mk m children) rest, fs, sds, hwf, h => by
    have hhead := FSList.keys_nodup_head hwf
    have hcwf : children.wf = true := FSList.wf_children hwf
    simp only [fromEntries] at h
    by_cases hex : f.is_file_excluded (p ++ [name]) = true
    · rw [if_pos hex] at h
      obtain ⟨hkeys, hwf2, hinc, hfl, hsl⟩ := fromEntries_spec hhead.2 h
      refine ⟨?_, hwf2, hinc, ?_, ?_⟩
      · intro k hk
        exact List.mem_cons_of_mem _ (hkeys k hk)
      · intro n
        by_cases hn : name = n
        · subst hn
          have hnone : hashGet fs name = none := by
            rw [hashGet_eq_none_iff]
            intro hmem
            exact hhead.1 (hkeys name (List.mem_append_left _ hmem))
          rw [hnone]
          simp [FSList.lookup, hex]
        · rw [hfl n]
          simp [FSList.lookup, hn]
      · intro n
        by_cases hn : name = n
        · subst hn
          have hnone : sds.lookup name = none := by
            rw [SubdirList.lookup_eq_none_iff]
            intro hmem
            exact hhead.1 (hkeys name (List.mem_append_right _ hmem))
          rw [hnone]
          simp [FSList.lookup, hex]
        · rw [hsl n]
          simp [FSList.lookup, hn]
    · rw [if_neg hex] at h
      rw [Bool.not_eq_true] at hex
      have hincname : f.is_file_included (p ++ [name]) = true :=
        included_of_not_excluded hex
      by_cases hd : m.is_dir = true
      · rw [if_pos hd] at h
        cases hc1 : fromEntries f (p ++ [name]) children with
        | none => rw [hc1] at h; simp at h
        | some pr1 =>
          cases hc2 : fromEntries f p rest with
          | none => rw [hc1, hc2] at h; obtain ⟨cfs, csds⟩ := pr1; simp at h
          | some pr2 =>
            obtain ⟨cfs, csds⟩ := pr1
            obtain ⟨fs2, sds2⟩ := pr2
            rw [hc1, hc2] at h
            simp only [Option.some.injEq, Prod.mk.injEq] at h
            obtain ⟨rfl, rfl⟩ := h
            obtain ⟨hkeysc, hwfc, hincc, hflc, hslc⟩ :=
              fromEntries_spec hcwf hc1
            obtain ⟨hkeys, hwf2, hinc, hfl, hsl⟩ :=
              fromEntries_spec hhead.2 hc2
            have hnamefresh : name ∉ fs2.map Prod.fst ++ sds2.keys :=
              fun hm => hhead.1 (hkeys name hm)
            refine ⟨?_, ?_, ?_, ?_, ?_⟩
            · intro k hk
              rw [List.mem_append] at hk
              rcases hk with hk | hk
              · exact List.mem_cons_of_mem _
                  (hkeys k (List.mem_append_left _ hk))
              · simp only [SubdirList.keys, List.mem_cons] at hk
                rcases hk with rfl | hk
                · simp [FSList.keys]
                · exact List.mem_cons_of_mem _
                    (hkeys k (List.mem_append_right _ hk))
            · have hnd : ((fs2.map Prod.fst) ++ sds2.keys).Nodup := by
                have := DirState.wf_files_nodup hwf2
                rw [show (DirState.mk fs2 sds2).wf =
                    (nodupKeysB (fs2.map Prod.fst ++ sds2.keys) &&
                      sds2.wf_all) from rfl, Bool.and_eq_true,
                  nodupKeysB_iff] at hwf2
                exact hwf2.1
              have hwall : sds2.wf_all = true := by
                exact DirState.wf_wf_all hwf2
              show (nodupKeysB (fs2.map Prod.fst ++ name :: sds2.keys) &&
                SubdirList.wf_all (.cons name (.mk cfs csds) sds2)) = true
              rw [Bool.and_eq_true, nodupKeysB_iff]
              constructor
              · rw [List.nodup_middle, List.nodup_cons]
                exact ⟨hnamefresh, hnd⟩
              · show (DirState.wf (.mk cfs csds) && sds2.wf_all) = true
                rw [Bool.and_eq_true]
                exact ⟨hwfc, hwall⟩
            · show ((fs2.all fun pr => f.is_file_included (p ++ [pr.1])) &&
                SubdirList.all_included_list f p (.cons name (.mk cfs csds) sds2)) = true
              rw [Bool.and_eq_true]
              constructor
              · have := hinc
                rw [show (DirState.mk fs2 sds2).all_included f p =
                    ((fs2.all fun pr => f.is_file_included (p ++ [pr.1])) &&
                      sds2.all_included_list f p) from rfl,
                  Bool.and_eq_true] at this
                exact this.1
              · show (f.is_file_included (p ++ [name]) &&
                  DirState.all_included f (p ++ [name]) (.mk cfs csds) &&
                  sds2.all_included_list f p) = true
                rw [Bool.and_eq_true, Bool.and_eq_true]
                refine ⟨⟨hincname, hincc⟩, ?_⟩
                have := hinc
                rw [show (DirState.mk fs2 sds2).all_included f p =
                    ((fs2.all fun pr => f.is_file_included (p ++ [pr.1])) &&
                      sds2.all_included_list f p) from rfl,
                  Bool.and_eq_true] at this
                exact this.2
            · intro n
              by_cases hn : name = n
              · subst hn
                have hnone : hashGet fs2 name = none := by
                  rw [hashGet_eq_none_iff]
                  intro hmem
                  exact hhead.1 (hkeys name (List.mem_append_left _ hmem))
                rw [hnone]
                simp [FSList.lookup, hex, hd]
              · rw [hfl n]
                simp [FSList.lookup, hn]
            · intro n
              by_cases hn : name = n
              · subst hn
                have hles : (FSList.cons name (FSEntry.mk m children) rest).lookup
                    name = some (FSEntry.mk m children) := by simp [FSList.lookup]
                have hsds : SubdirList.lookup (.cons name (.mk cfs csds) sds2)
                    name = some (.mk cfs csds) := by simp [SubdirList.lookup]
                rw [hsds, hles]
                have hfd : DirState.from_dir f (p ++ [name]) children =
                    some (.mk cfs csds) := by
                  unfold DirState.from_dir
                  rw [hc1]
                simp [hex, hd, hfd]
              · show SubdirList.lookup (.cons name (.mk cfs csds) sds2) n = _
                simp only [SubdirList.lookup, if_neg hn]
                rw [hsl n]
                simp [FSList.lookup, hn]
      · rw [if_neg hd] at h
        rw [Bool.not_eq_true] at hd
        have hmeta : FileState.from_metadata m =
            some ⟨m.modified, m.len⟩ := by
          simp [FileState.from_metadata, hd]
        rw [hmeta] at h
        cases hc2 : fromEntries f p rest with
        | none => rw [hc2] at h; simp at h
        | some pr2 =>
          obtain ⟨fs2, sds2⟩ := pr2
          rw [hc2] at h
          simp only [Option.some.injEq, Prod.mk.injEq] at h
          obtain ⟨rfl, rfl⟩ := h
          obtain ⟨hkeys, hwf2, hinc, hfl, hsl⟩ := fromEntries_spec hhead.2 hc2
          have hnamefresh : name ∉ fs2.map Prod.fst ++ sds2.keys :=
            fun hm => hhead.1 (hkeys name hm)
          refine ⟨?_, ?_, ?_, ?_, ?_⟩
          · intro k hk
            simp only [List.map_cons, List.cons_append, List.mem_cons] at hk
            rcases hk with rfl | hk
            · simp [FSList.keys]
            · exact List.mem_cons_of_mem _ (hkeys k hk)
          · have hnd : ((fs2.map Prod.fst) ++ sds2.keys).Nodup := by
              rw [show (DirState.mk fs2 sds2).wf =
                  (nodupKeysB (fs2.map Prod.fst ++ sds2.keys) &&
                    sds2.wf_all) from rfl, Bool.and_eq_true,
                nodupKeysB_iff] at hwf2
              exact hwf2.1
            have hwall : sds2.wf_all = true :=
              DirState.wf_wf_all hwf2
            show (nodupKeysB (((name, FileState.mk m.modified m.len) :: fs2).map
              Prod.fst ++ sds2.keys) && sds2.wf_all) = true
            rw [Bool.and_eq_true, nodupKeysB_iff]
            refine ⟨?_, hwall⟩
            simp only [List.map_cons, List.cons_append, List.nodup_cons]
            exact ⟨hnamefresh, hnd⟩
          · show ((((name, FileState.mk m.modified m.len) :: fs2).all
              fun pr => f.is_file_included (p ++ [pr.1])) &&
              sds2.all_included_list f p) = true
            rw [Bool.and_eq_true]
            have := hinc
            rw [show (DirState.mk fs2 sds2).all_included f p =
                ((fs2.all fun pr => f.is_file_included (p ++ [pr.1])) &&
                  sds2.all_included_list f p) from rfl,
              Bool.and_eq_true] at this
            refine ⟨?_, this.2⟩
            simp only [List.all_cons, Bool.and_eq_true]
            exact ⟨hincname, this.1⟩
          · intro n
            by_cases hn : name = n
            · subst hn
              simp [hashGet, FSList.lookup, hex, hd]
            · show hashGet ((name, FileState.mk m.modified m.len) :: fs2) n = _
              simp only [hashGet, if_neg hn]
              rw [hfl n]
              simp [FSList.lookup, hn]
          · intro n
            by_cases hn : name = n
            · subst hn
              have hnone : sds2.lookup name = none := by
                rw [SubdirList.lookup_eq_none_iff]
                intro hmem
                exact hhead.1 (hkeys name (List.mem_append_right _ hmem))
              rw [hnone]
              simp [FSList.lookup, hex, hd]
            · rw [hsl n]
              simp [FSList.lookup, hn]

/-! ## Claim C5, part 3: copy characterization -/

theorem copyFiles_wf : ∀ (files : List (String × FileState)) {dest dest1 : FSList},
    dest.wf = true → copyFiles files dest = some dest1 → dest1.wf = true
  | [], dest, dest1, hw, h => by
    simp only [copyFiles, Option.some.injEq] at h
    exact h ▸ hw
  | (name, st) :: rest, dest, dest1, hw, h => by
    simp only [copyFiles] at h
    cases hl : dest.lookup name with
    | some e =>
      obtain ⟨m, c⟩ := e
      rw [hl] at h
      by_cases hd : m.is_dir = true
      · simp [hd] at h
      · rw [Bool.not_eq_true] at hd
        simp only [hd] at h
        simp only [Bool.false_eq_true, if_false] at h
        exact copyFiles_wf rest (FSList.set_wf dest name _ .nil hw rfl) h
    | none =>
      rw [hl] at h
      have h2 : copyFiles rest
          (dest.set name (.mk ⟨false, st.size, st.modified⟩ .nil)) = some dest1 := h
      exact copyFiles_wf rest (FSList.set_wf dest name _ .nil hw rfl) h2

theorem copyFiles_lookup : ∀ (files : List (String × FileState)) {dest dest1 : FSList},
    (files.map Prod.fst).Nodup → copyFiles files dest = some dest1 →
    ∀ n, dest1.lookup n =
      (match hashGet files n with
       | some st => some (.mk ⟨false, st.size, st.modified⟩ .nil)
       | none => dest.lookup n)
  | [], dest, dest1, _, h, n => by
    simp only [copyFiles, Option.some.injEq] at h
    subst h
    simp [hashGet]
  | (name, st) :: rest, dest, dest1, hnd, h, n => by
    simp only [List.map_cons, List.nodup_cons] at hnd
    simp only [copyFiles] at h
    have hstep : copyFiles rest
        (dest.set name (.mk ⟨false, st.size, st.modified⟩ .nil)) = some dest1 := by
      cases hl : dest.lookup name with
      | some e =>
        obtain ⟨m, c⟩ := e
        rw [hl] at h
        by_cases hd : m.is_dir = true
        · simp [hd] at h
        · rw [Bool.not_eq_true] at hd
          simp only [hd] at h
          simp only [Bool.false_eq_true, if_false] at h
          exact h
      | none =>
        rw [hl] at h
        exact h
    have ih := copyFiles_lookup rest hnd.2 hstep
    by_cases hn : name = n
    · subst hn
      have hrest : hashGet rest name = none := by
        rw [hashGet_eq_none_iff]
        exact hnd.1
      have := ih name
      rw [hrest] at this
      rw [FSList.set_lookup] at this
      rw [if_pos rfl] at this
      simp only [hashGet, if_pos rfl]
      exact this
    · have := ih n
      rw [FSList.set_lookup, if_neg hn] at this
      simp only [hashGet, if_neg hn]
      exact this

mutual

theorem copy_into_wf : ∀ (s : DirState) {dest dest1 : FSList},
    dest.wf = true → s.copy_into dest = some dest1 → dest1.wf = true
  | .mk files subdirs, dest, dest1, hw, h => by
    simp only [DirState.copy_into] at h
    cases hcf : copyFiles files dest with
    | none => rw [hcf] at h; simp at h
    | some destA =>
      rw [hcf] at h
      exact copy_subdirs_wf subdirs (copyFiles_wf files hw hcf) h

theorem copy_subdirs_wf : ∀ (l : SubdirList) {dest dest1 : FSList},
    dest.wf = true → l.copy_subdirs_into dest = some dest1 → dest1.wf = true
  | .nil, dest, dest1, hw, h => by
    simp only [SubdirList.copy_subdirs_into, Option.some.injEq] at h
    exact h ▸ hw
  | .cons name sub rest, dest, dest1, hw, h => by
    simp only [SubdirList.copy_subdirs_into] at h
    cases hl : dest.lookup name with
    | some e =>
      obtain ⟨m, c⟩ := e
      rw [hl] at h
      by_cases hd : m.is_dir = true
      · simp only [hd, if_true] at h
        cases hc : sub.copy_into c with
        | none => rw [hc] at h; simp at h
        | some nc =>
          rw [hc] at h
          have hcw : c.wf = true := FSList.lookup_children_wf hw hl
          have hncw : nc.wf = true := copy_into_wf sub hcw hc
          exact copy_subdirs_wf rest (FSList.set_wf dest name m nc hw hncw) h
      · simp [hd] at h
    | none =>
      rw [hl] at h
      have h2 : (match sub.copy_into FSList.nil with
          | some newChildren =>
            rest.copy_subdirs_into (dest.set name (.mk ⟨true, 0, 0⟩ newChildren))
          | none => none) = some dest1 := h
      cases hc : sub.copy_into .nil with
      | none => rw [hc] at h2; simp at h2
      | some nc =>
        rw [hc] at h2
        have hncw : nc.wf = true := copy_into_wf sub (show FSList.nil.wf = true from rfl) hc
        exact copy_subdirs_wf rest (FSList.set_wf dest name _ nc hw hncw) h2

end

theorem copy_subdirs_lookup : ∀ (l : SubdirList) {dest dest1 : FSList},
    l.keys.Nodup → dest.wf = true → l.copy_subdirs_into dest = some dest1 →
    ∀ n, (match l.lookup n with
      | some sub => ∃ m c0 nc, dest1.lookup n = some (.mk m nc) ∧
          m.is_dir = true ∧ c0.wf = true ∧ sub.copy_into c0 = some nc
      | none => dest1.lookup n = dest.lookup n)
  | .nil, dest, dest1, _, _, h, n => by
    simp only [SubdirList.copy_subdirs_into, Option.some.injEq] at h
    subst h
    simp [SubdirList.lookup]
  | .cons name sub rest, dest, dest1, hnd, hw, h, n => by
    simp only [SubdirList.keys, List.nodup_cons] at hnd
    simp only [SubdirList.copy_subdirs_into] at h
    have hrestnone : rest.lookup name = none := by
      rw [SubdirList.lookup_eq_none_iff]
      exact hnd.1
    obtain ⟨m1, c0, nc, hdir1, hc0wf, hcopy, hstep⟩ :
        ∃ (m1 : Metadata) (c0 nc : FSList), m1.is_dir = true ∧ c0.wf = true ∧
          sub.copy_into c0 = some nc ∧
          rest.copy_subdirs_into (dest.set name (.mk m1 nc)) = some dest1 := by
      cases hl : dest.lookup name with
      | some e =>
        obtain ⟨m, c⟩ := e
        rw [hl] at h
        by_cases hd : m.is_dir = true
        · simp only [hd, if_true] at h
          cases hc : sub.copy_into c with
          | none => rw [hc] at h; simp at h
          | some nc =>
            rw [hc] at h
            exact ⟨m, c, nc, hd, FSList.lookup_children_wf hw hl, hc, h⟩
        · simp [hd] at h
      | none =>
        rw [hl] at h
        have h2 : (match sub.copy_into FSList.nil with
            | some newChildren =>
              rest.copy_subdirs_into (dest.set name (.mk ⟨true, 0, 0⟩ newChildren))
            | none => none) = some dest1 := h
        cases hc : sub.copy_into .nil with
        | none => rw [hc] at h2; simp at h2
        | some nc =>
          rw [hc] at h2
          exact ⟨⟨true, 0, 0⟩, .nil, nc, rfl, (rfl : FSList.nil.wf = FSList.nil.wf).trans rfl, hc, h2⟩
    have hw2 : (dest.set name (.mk m1 nc)).wf = true := by
      refine FSList.set_wf dest name m1 nc hw ?_
      exact copy_into_wf sub hc0wf hcopy
    have ih := copy_subdirs_lookup rest hnd.2 hw2 hstep
    by_cases hn : name = n
    · subst hn
      simp only [SubdirList.lookup, if_pos rfl]
      have := ih name
      rw [hrestnone] at this
      rw [FSList.set_lookup, if_pos rfl] at this
      exact ⟨m1, c0, nc, this, hdir1, hc0wf, hcopy⟩
    · simp only [SubdirList.lookup, if_neg hn]
      have := ih n
      cases hln : rest.lookup n with
      | some sub2 =>
        rw [hln] at this
        exact this
      | none =>
        rw [hln] at this
        rw [FSList.set_lookup, if_neg hn] at this
        exact this

/-! ## Claim C5, part 4: prune characterization -/

theorem remove_extraneous_lookup :
    ∀ (s : DirState) (f : FileFilter) (p : List String) (d : FSList),
    d.wf = true → ∀ (n : String),
    (s.remove_extraneous_files_from f p d).lookup n =
      (match d.lookup n with
       | some (.mk m children) =>
         if f.is_file_excluded (p ++ [n]) = true then some (.mk m children)
         else if m.is_dir = true then
           (match s.subdirs.lookup n with
            | some sub =>
              some (.mk m (sub.remove_extraneous_files_from f (p ++ [n]) children))
            | none => none)
         else if (hashGet s.files n).isSome = true then some (.mk m children)
         else none
       | none => none)
  | s, f, p, .nil, _, n => by
    simp [DirState.remove_extraneous_files_from, FSList.lookup]
  | s, f, p, .cons name (.mk m children) rest, hwf, n => by
    have hhead := FSList.keys_nodup_head hwf
    have ih := remove_extraneous_lookup s f p rest hhead.2
    simp only [DirState.remove_extraneous_files_from]
    by_cases hn : name = n
    · subst hn
      have hld : (FSList.cons name (.mk m children) rest).lookup name =
          some (FSEntry.mk m children) := by simp [FSList.lookup]
      rw [hld]
      have hpr_none :
          (s.remove_extraneous_files_from f p rest).lookup name = none := by
        rw [FSList.lookup_none_iff_not_mem]
        intro hmem
        exact hhead.1 (remove_extraneous_keys_sub s f p rest name hmem)
      by_cases hex : f.is_file_excluded (p ++ [name]) = true
      · simp [FSList.lookup, hex]
      · rw [Bool.not_eq_true] at hex
        by_cases hd : m.is_dir = true
        · cases hsub : s.subdirs.lookup name with
          | some sub => simp [FSList.lookup, hex, hd, hsub]
          | none => simp [FSList.lookup, hex, hd, hsub, hpr_none]
        · rw [Bool.not_eq_true] at hd
          by_cases hf : (hashGet s.files name).isSome = true
          · simp [FSList.lookup, hex, hd, hf]
          · simp only [Bool.not_eq_true] at hf
            simp [FSList.lookup, hex, hd, hf, hpr_none]
    · have hld : (FSList.cons name (.mk m children) rest).lookup n =
          rest.lookup n := by simp [FSList.lookup, hn]
      rw [hld]
      by_cases hex : f.is_file_excluded (p ++ [name]) = true
      · simp only [if_pos hex, FSList.lookup, if_neg hn]
        exact ih n
      · rw [Bool.not_eq_true] at hex
        by_cases hd : m.is_dir = true
        · cases hsub : s.subdirs.lookup name with
          | some sub =>
            simp only [hex, Bool.false_eq_true, if_false, hd, if_true, hsub,
              FSList.lookup, if_neg hn]
            exact ih n
          | none =>
            simp only [hex, Bool.false_eq_true, if_false, hd, if_true, hsub]
            exact ih n
        · rw [Bool.not_eq_true] at hd
          by_cases hf : (hashGet s.files name).isSome = true
          · simp only [hex, Bool.false_eq_true, if_false, hd, if_true, hf,
              FSList.lookup, if_neg hn]
            exact ih n
          · simp only [Bool.not_eq_true] at hf
            simp only [hex, Bool.false_eq_true, if_false, hd, hf, if_true]
            exact ih n

/-! ## Claim C5, part 5: extensionality of structural equality -/

theorem length_eq_of_nodup_mem_iff {l1 l2 : List String} (h1 : l1.Nodup)
    (h2 : l2.Nodup) (h : ∀ k, k ∈ l1 ↔ k ∈ l2) : l1.length = l2.length := by
  have s1 : List.Subperm l1 l2 :=
    List.subperm_of_subset h1 (fun k hk => (h k).1 hk)
  have s2 : List.Subperm l2 l1 :=
    List.subperm_of_subset h2 (fun k hk => (h k).2 hk)
  exact Nat.le_antisymm s1.length_le s2.length_le

theorem all_included_parts {files : List (String × FileState)}
    {subdirs : SubdirList} {f : FileFilter} {p : List String}
    (h : (DirState.mk files subdirs).all_included f p = true) :
    (∀ pr ∈ files, f.is_file_included (p ++ [pr.1]) = true) ∧
    subdirs.all_included_list f p = true := by
  rw [show (DirState.mk files subdirs).all_included f p =
      ((files.all fun pr => f.is_file_included (p ++ [pr.1])) &&
        subdirs.all_included_list f p) from rfl,
    Bool.and_eq_true, List.all_eq_true] at h
  exact h

theorem SubdirList.all_included_list_lookup : ∀ {l : SubdirList} {f : FileFilter}
    {p : List String}, l.all_included_list f p = true →
    ∀ {n : String} {sub : DirState}, l.lookup n = some sub →
      f.is_file_included (p ++ [n]) = true ∧
      sub.all_included f (p ++ [n]) = true
  | .nil, f, p, _, n, sub, h => by simp [SubdirList.lookup] at h
  | .cons n0 s0 rest, f, p, hall, n, sub, h => by
    simp only [SubdirList.all_included_list, Bool.and_eq_true] at hall
    obtain ⟨⟨hi, hs⟩, hr⟩ := hall
    simp only [SubdirList.lookup] at h
    by_cases hne : n0 = n
    · rw [if_pos hne] at h
      obtain rfl : s0 = sub := by injection h
      exact ⟨hne ▸ hi, hne ▸ hs⟩
    · rw [if_neg hne] at h
      exact SubdirList.all_included_list_lookup hr h

theorem excluded_false_of_included {f : FileFilter} {p : List String}
    (h : f.is_file_included p = true) : f.is_file_excluded p = false := by
  simp [FileFilter.is_file_excluded, h]

theorem equal_of_pointwise (fs2 : List (String × FileState)) (sds2 : SubdirList)
    (fs : List (String × FileState)) (sds : SubdirList)
    (hnd2 : (fs2.map Prod.fst).Nodup) (hnd : (fs.map Prod.fst).Nodup)
    (hk2 : sds2.keys.Nodup) (hk : sds.keys.Nodup)
    (hfile : ∀ n, hashGet fs2 n = hashGet fs n)
    (hsome : ∀ n, (sds2.lookup n).isSome = (sds.lookup n).isSome)
    (heq : ∀ n s2 s, sds2.lookup n = some s2 → sds.lookup n = some s →
      s2.are_contents_equal_to s = true) :
    (DirState.mk fs2 sds2).are_contents_equal_to (.mk fs sds) = true := by
  show (filesEqual fs2 fs && (sds2.length == sds.length) &&
    sds2.all_contents_equal sds) = true
  rw [Bool.and_eq_true, Bool.and_eq_true]
  refine ⟨⟨?_, ?_⟩, ?_⟩
  · rw [filesEqual_true_iff]
    constructor
    · have hl2 : fs2.length = (fs2.map Prod.fst).length := by simp
      have hl : fs.length = (fs.map Prod.fst).length := by simp
      rw [hl2, hl]
      refine length_eq_of_nodup_mem_iff hnd2 hnd fun k => ?_
      rw [← hashGet_isSome_iff, ← hashGet_isSome_iff, hfile k]
    · intro q hq
      have hg : hashGet fs2 q.1 = some q.2 :=
        hashGet_eq_of_mem hnd2 (by rw [Prod.mk.eta]; exact hq)
      rw [← hfile q.1]
      exact hg
  · rw [beq_iff_eq, SubdirList.length_eq_keys_length,
      SubdirList.length_eq_keys_length]
    refine length_eq_of_nodup_mem_iff hk2 hk fun k => ?_
    rw [← SubdirList.lookup_isSome_iff, ← SubdirList.lookup_isSome_iff, hsome k]
  · refine SubdirList.all_contents_equal_of_lookup sds2 sds hk2 fun n s2 hl => ?_
    have hx : (sds.lookup n).isSome = true := by rw [← hsome n, hl]; rfl
    cases hls : sds.lookup n with
    | none => rw [hls] at hx; simp at hx
    | some s => exact ⟨s, rfl, heq n s2 s hl hls⟩

/-! ## Claim C5, part 6: the round-trip theorem -/

theorem SubdirAllRoundTrip_lookup : ∀ {l : SubdirList}, SubdirAllRoundTrip l →
    ∀ {n : String} {s : DirState}, l.lookup n = some s → RoundTripP s
  | .nil, _, n, s, h => by simp [SubdirList.lookup] at h
  | .cons n0 s0 rest, hall, n, s, h => by
    obtain ⟨hp, hrest⟩ := hall
    simp only [SubdirList.lookup] at h
    by_cases hne : n0 = n
    · rw [if_pos hne] at h
      obtain rfl : s0 = s := by injection h
      exact hp
    · rw [if_neg hne] at h
      exact SubdirAllRoundTrip_lookup hrest h

mutual

theorem round_trip_main : ∀ (s : DirState), RoundTripP s
  | .mk files subdirs => by
    intro f p dest dest1 hwf hinc hdwf hcopy
    have hfnd : (files.map Prod.fst).Nodup :=
      DirState.wf_files_nodup hwf
    have hknd : subdirs.keys.Nodup :=
      DirState.wf_subdir_keys_nodup hwf
    have hall : subdirs.wf_all = true :=
      DirState.wf_wf_all hwf
    have hjoint : (files.map Prod.fst ++ subdirs.keys).Nodup := by
      have h := hwf
      rw [show (DirState.mk files subdirs).wf =
          (nodupKeysB (files.map Prod.fst ++ subdirs.keys) && subdirs.wf_all)
          from rfl, Bool.and_eq_true, nodupKeysB_iff] at h
      exact h.1
    have hdisj : ∀ n st, hashGet files n = some st → subdirs.lookup n = none := by
      intro n st hg
      rw [SubdirList.lookup_eq_none_iff]
      intro hmem
      have hnf : n ∈ files.map Prod.fst := by
        rw [← hashGet_isSome_iff, hg]
        rfl
      exact (List.disjoint_of_nodup_append hjoint) hnf hmem
    have hinc_parts := all_included_parts hinc
    simp only [DirState.copy_into] at hcopy
    cases hcf : copyFiles files dest with
    | none => rw [hcf] at hcopy; simp at hcopy
    | some destA =>
    rw [hcf] at hcopy
    have hAwf : destA.wf = true := copyFiles_wf files hdwf hcf
    have h1wf : dest1.wf = true := copy_subdirs_wf subdirs hAwf hcopy
    have hcfl := copyFiles_lookup files hfnd hcf
    have hcsl := copy_subdirs_lookup subdirs hknd hAwf hcopy
    have hprl := remove_extraneous_lookup (.mk files subdirs) f p dest1 h1wf
    have hprwf :
        ((DirState.mk files subdirs).remove_extraneous_files_from f p dest1).wf
          = true :=
      remove_extraneous_wf _ f p dest1 h1wf
    have hse := fromEntries_isSome f p
      ((DirState.mk files subdirs).remove_extraneous_files_from f p dest1)
    cases hfe : fromEntries f p
        ((DirState.mk files subdirs).remove_extraneous_files_from f p dest1) with
    | none => rw [hfe] at hse; simp at hse
    | some pr =>
    obtain ⟨fs2, sds2⟩ := pr
    obtain ⟨hkeys2, hwf2, hinc2, hfl2, hsl2⟩ := fromEntries_spec hprwf hfe
    have hsproj : (DirState.mk files subdirs).subdirs = subdirs := rfl
    have hfproj : (DirState.mk files subdirs).files = files := rfl
    have hfilemap : ∀ n, hashGet fs2 n = hashGet files n := by
      intro n
      rw [hfl2 n, hprl n]
      cases hg : hashGet files n with
      | some st =>
        have hsubn : subdirs.lookup n = none := hdisj n st hg
        have hincn : f.is_file_included (p ++ [n]) = true :=
          hinc_parts.1 (n, st) (hashGet_mem hg)
        have hexn : f.is_file_excluded (p ++ [n]) = false :=
          excluded_false_of_included hincn
        have hd1 : dest1.lookup n = some (.mk ⟨false, st.size, st.modified⟩ .nil) := by
          have hc := hcsl n
          rw [hsubn] at hc
          rw [hc, hcfl n, hg]
        rw [hd1]
        simp [hexn, hsproj, hfproj, hsubn, hg]
      | none =>
        cases hsub : subdirs.lookup n with
        | some sub =>
          have hc := hcsl n
          rw [hsub] at hc
          obtain ⟨m, c0, nc, hd1, hm, hc0wf, hcop⟩ := hc
          have hincn : f.is_file_included (p ++ [n]) = true :=
            (SubdirList.all_included_list_lookup hinc_parts.2 hsub).1
          have hexn : f.is_file_excluded (p ++ [n]) = false :=
            excluded_false_of_included hincn
          rw [hd1]
          simp [hexn, hm, hsproj, hsub]
        | none =>
          have hc := hcsl n
          rw [hsub] at hc
          have hd1 : dest1.lookup n = dest.lookup n := by
            rw [hc, hcfl n, hg]
          rw [hd1]
          cases hdl : dest.lookup n with
          | none => simp
          | some e =>
            obtain ⟨m, c⟩ := e
            by_cases hex2 : f.is_file_excluded (p ++ [n]) = true
            · simp [hex2]
            · rw [Bool.not_eq_true] at hex2
              by_cases hm : m.is_dir = true
              · simp [hex2, hm, hsproj, hsub]
              · rw [Bool.not_eq_true] at hm
                have hgi : (hashGet (DirState.mk files subdirs).files n).isSome
                    = false := by
                  rw [hfproj, hg]
                  rfl
                simp [hex2, hm, hgi]
    have hsubmap : ∀ n,
        (subdirs.lookup n = none → sds2.lookup n = none) ∧
        (∀ sub, subdirs.lookup n = some sub →
          ∃ s2, sds2.lookup n = some s2 ∧
            s2.are_contents_equal_to sub = true) := by
      intro n
      constructor
      · intro hsub
        rw [hsl2 n, hprl n]
        cases hg : hashGet files n with
        | some st =>
          have hincn : f.is_file_included (p ++ [n]) = true :=
            hinc_parts.1 (n, st) (hashGet_mem hg)
          have hexn : f.is_file_excluded (p ++ [n]) = false :=
            excluded_false_of_included hincn
          have hd1 : dest1.lookup n =
              some (.mk ⟨false, st.size, st.modified⟩ .nil) := by
            have hc := hcsl n
            rw [hsub] at hc
            rw [hc, hcfl n, hg]
          rw [hd1]
          have hgi : (hashGet (DirState.mk files subdirs).files n).isSome
              = true := by
            rw [hfproj, hg]
            rfl
          simp [hexn, hgi]
        | none =>
          have hc := hcsl n
          rw [hsub] at hc
          have hd1 : dest1.lookup n = dest.lookup n := by
            rw [hc, hcfl n, hg]
          rw [hd1]
          cases hdl : dest.lookup n with
          | none => simp
          | some e =>
            obtain ⟨m, c⟩ := e
            by_cases hex2 : f.is_file_excluded (p ++ [n]) = true
            · simp [hex2]
            · rw [Bool.not_eq_true] at hex2
              by_cases hm : m.is_dir = true
              · simp [hex2, hm, hsproj, hsub]
              · rw [Bool.not_eq_true] at hm
                simp [hex2, hm, hfproj, hg]
      · intro sub hsub
        have hc := hcsl n
        rw [hsub] at hc
        obtain ⟨m, c0, nc, hd1, hm, hc0wf, hcop⟩ := hc
        have hii := SubdirList.all_included_list_lookup hinc_parts.2 hsub
        have hexn : f.is_file_excluded (p ++ [n]) = false :=
          excluded_false_of_included hii.1
        have hsubwf : sub.wf = true := SubdirList.lookup_wf hall hsub
        have hrt : RoundTripP sub :=
          SubdirAllRoundTrip_lookup (round_trip_all subdirs) hsub
        obtain ⟨s2, hs2, hs2eq⟩ :=
          hrt f (p ++ [n]) c0 nc hsubwf hii.2 hc0wf hcop
        refine ⟨s2, ?_, hs2eq⟩
        rw [hsl2 n, hprl n, hd1]
        simp only [hexn, Bool.false_eq_true, if_false, hm, if_true, hsproj, hsub]
        exact hs2
    have hnd2 : (fs2.map Prod.fst).Nodup :=
      DirState.wf_files_nodup hwf2
    have hk2 : sds2.keys.Nodup :=
      DirState.wf_subdir_keys_nodup hwf2
    refine ⟨.mk fs2 sds2, ?_, ?_⟩
    · unfold DirState.from_dir
      rw [hfe]
    · refine equal_of_pointwise fs2 sds2 files subdirs hnd2 hfnd hk2 hknd
        hfilemap ?_ ?_
      · intro n
        cases hsub : subdirs.lookup n with
        | none =>
          rw [(hsubmap n).1 hsub]
        | some sub =>
          obtain ⟨s2, hs2, _⟩ := (hsubmap n).2 sub hsub
          rw [hs2]
          rfl
      · intro n s2 s hl2 hls
        obtain ⟨s2x, hs2x, hs2eq⟩ := (hsubmap n).2 s hls
        rw [hl2] at hs2x
        obtain rfl : s2 = s2x := by injection hs2x
        exact hs2eq

theorem round_trip_all : ∀ (l : SubdirList), SubdirAllRoundTrip l
  | .nil => trivial
  | .cons _ s rest => ⟨round_trip_main s, round_trip_all rest⟩

end

/-- C5: for every snapshot S taken from a well-formed source tree with a
filter, and every well-formed destination directory (modelled filesystem
state), a successful `copy_into(S, dest)` followed by
`remove_extraneous_files_from(S, dest)`, with no concurrent external
mutation, leaves the destination so that a fresh snapshot of it (same
filter) is structurally equal to S. -/
theorem c5_copy_prune_round_trip (f : FileFilter) (p : List String)
    (src dest : FSList) (S : DirState) (dest1 : FSList)
    (hsrc : src.wf = true) (hdest : dest.wf = true)
    (hS : DirState.from_dir f p src = some S)
    (hcopy : S.copy_into dest = some dest1) :
    ∃ S2, DirState.from_dir f p (S.remove_extraneous_files_from f p dest1) =
      some S2 ∧ S2.are_contents_equal_to S = true := by
  unfold DirState.from_dir at hS
  cases hfe : fromEntries f p src with
  | none => rw [hfe] at hS; simp at hS
  | some pr =>
    obtain ⟨fs, sds⟩ := pr
    rw [hfe] at hS
    have hS2 : S = .mk fs sds := by
      injection hS with h2
      exact h2.symm
    subst hS2
    obtain ⟨_, hwf, hinc, _, _⟩ := fromEntries_spec hsrc hfe
    exact round_trip_main (.mk fs sds) f p dest dest1 hwf hinc hdest hcopy

/-- Witness for C5: a source with a file and a subdirectory, a destination
with clashing stale content and extra entries; the copy-then-prune round
trip reproduces the source snapshot. -/
theorem c5_copy_prune_round_trip_witness :
    ∃ S2, DirState.from_dir ⟨none⟩ []
        ((DirState.mk [("x", ⟨100, 3⟩)] (.cons "d" (.mk [("y", ⟨42, 7⟩)] .nil) .nil)).remove_extraneous_files_from
          ⟨none⟩ []
          (((DirState.mk [("x", ⟨100, 3⟩)] (.cons "d" (.mk [("y", ⟨42, 7⟩)] .nil) .nil)).copy_into
            (.cons "junk" (.mk ⟨false, 1, 1⟩ .nil)
              (.cons "d" (.mk ⟨true, 0, 9⟩ (.cons "z" (.mk ⟨false, 2, 2⟩ .nil) .nil)) .nil))).getD .nil)) =
      some S2 ∧
    S2.are_contents_equal_to
      (DirState.mk [("x", ⟨100, 3⟩)] (.cons "d" (.mk [("y", ⟨42, 7⟩)] .nil) .nil)) = true :=
  c5_copy_prune_round_trip ⟨none⟩ []
    (.cons "x" (.mk ⟨false, 3, 100⟩ .nil)
      (.cons "d" (.mk ⟨true, 0, 5⟩ (.cons "y" (.mk ⟨false, 7, 42⟩ .nil) .nil)) .nil))
    (.cons "junk" (.mk ⟨false, 1, 1⟩ .nil)
      (.cons "d" (.mk ⟨true, 0, 9⟩ (.cons "z" (.mk ⟨false, 2, 2⟩ .nil) .nil)) .nil))
    (DirState.mk [("x", ⟨100, 3⟩)] (.cons "d" (.mk [("y", ⟨42, 7⟩)] .nil) .nil))
    (((DirState.mk [("x", ⟨100, 3⟩)] (.cons "d" (.mk [("y", ⟨42, 7⟩)] .nil) .nil)).copy_into
      (.cons "junk" (.mk ⟨false, 1, 1⟩ .nil)
        (.cons "d" (.mk ⟨true, 0, 9⟩ (.cons "z" (.mk ⟨false, 2, 2⟩ .nil) .nil)) .nil))).getD .nil)
    rfl rfl rfl rfl
